import Mathlib

/-!
# BSFixedString (CommonLibF4, `RE/Bethesda/BSFixedString.h`)

A shallow embedding of the interned-string handle `RE::detail::BSFixedString<CharT, CS>`
and of the string-pool interface it is written against.

* Code units (`char` / `wchar_t`) are natural numbers, `0` being the terminator.
* A character pointer is `Option (List CharT)`: `none` is `nullptr`, `some buf` is a pointer
  whose readable buffer holds exactly the code units `buf` (reading at an index `≥ buf.length`
  leaves the buffer and has no defined result, which the embedding returns as `none`).
* An `Entry*` is `Option Ptr`: `none` is `nullptr`, `some p` the Entry at address `p`.
* The template parameter `CS` is an explicit `Bool` argument `cs`.
* Handle objects are identified by a natural number (their address `this`), so that
  `this != std::addressof(a_rhs)` is `this ≠ a_rhs`.
-/

namespace RE

/-- A code unit (`value_type`): `char` or `wchar_t`. -/
abbrev CharT := Nat

/-- The address of a `BSStringPool::Entry`. -/
abbrev Ptr := Nat

/-- A `const value_type*`: `nullptr`, or the code units readable from the pointed-to position. -/
abbrev ConstPointer := Option (List CharT)

/-- A `std::basic_string_view<value_type>`: pointer plus length. -/
structure StringView where
  data : ConstPointer
  length : Nat
deriving DecidableEq, Repr

/-- The view's `empty()`: `size() == 0`. -/
def StringView.empty (v : StringView) : Bool := v.length == 0

/-- Modelled from the spec: `BSStringPool::Entry`, declared in `BSStringPool.h`, which is not
among the sources. The handle reads an Entry only through `leaf()`, `size()`, `length()` and
`data<value_type>()`; each field below is the value the accessor of that name returns for this
Entry. `refs` is the spec's reference count of the Entry. -/
structure BSStringPool.Entry where
  leaf : Option Ptr
  size : Nat
  length : Nat
  data : ConstPointer
  refs : Nat
deriving DecidableEq, Repr

/-- The Entry stored at each address. -/
abbrev Mem := Ptr → BSStringPool.Entry

/-- Write Entry `e` at address `p`. -/
def setEntry (mem : Mem) (p : Ptr) (e : BSStringPool.Entry) : Mem :=
  fun q => if q = p then e else mem q

/-- The C library's `tolower` / `towlower` in the "C" locale: `A`..`Z` map to `a`..`z`. -/
def tolower (c : Nat) : Nat := if 65 ≤ c ∧ c ≤ 90 then c + 32 else c

/-- The C library's `std::strncmp` / `std::wcsncmp` on two buffers: compares at most `n` code
units, stops at the first difference or at a terminator; `none` when a read leaves a buffer. -/
def std_strncmp : List CharT → List CharT → Nat → Option Int
  | _, _, 0 => some 0
  | a :: l, b :: r, n + 1 =>
    if a ≠ b then some ((a : Int) - (b : Int))
    else if a = 0 then some 0
    else std_strncmp l r n
  | _, _, _ + 1 => none

/-- The C runtime's `_strnicmp` / `_wcsnicmp`: as `std_strncmp`, on the lowercased code units. -/
def strnicmp : List CharT → List CharT → Nat → Option Int
  | _, _, 0 => some 0
  | a :: l, b :: r, n + 1 =>
    if tolower a ≠ tolower b then some ((tolower a : Int) - (tolower b : Int))
    else if tolower a = 0 then some 0
    else strnicmp l r n
  | _, _, _ + 1 => none

/-- The text of the NUL-terminated string that starts a buffer: the code units before the first
terminator; `none` when the buffer holds no terminator (the read would leave the buffer). -/
def cstr (buf : List CharT) : Option (List CharT) :=
  if 0 ∈ buf then some (buf.takeWhile (fun c => c != 0)) else none

/-- Modelled from the spec: the String Pool of `BSStringPool.h`, which is not among the sources:
"a mapping from hash bucket to the set of Entries whose string hashes into that bucket". `mem`
holds the Entries' storage, `buckets` the addresses of the live Entries per bucket, and `next`
is the address the next allocation returns. -/
structure BSStringPool where
  mem : Mem
  buckets : Nat → List Ptr
  next : Ptr

namespace BSStringPool

/-- Modelled from the spec: the normalized form of a text, "case-folded if insensitive mode;
unmodified if sensitive". -/
def normalize (cs : Bool) (text : List CharT) : List CharT :=
  if cs then text else text.map tolower

/-- Modelled from the spec: `Entry::acquire()` of the missing `BSStringPool.h`: "increments an
Entry's reference count by 1". -/
def Entry.acquire (P : BSStringPool) (p : Ptr) : BSStringPool :=
  { P with mem := setEntry P.mem p { P.mem p with refs := (P.mem p).refs + 1 } }

/-- Modelled from the spec: `Entry::release(Entry*&)` of the missing `BSStringPool.h`:
"decrements an Entry's reference count; if it reaches zero, removes the Entry from its bucket
and frees its storage. No-op if entry reference is null". The handle passes its own `_data`;
the second component is the value that reference holds afterwards, which is null (the handle
writes `_data` nowhere else on its assignment from an empty text, after which the spec has it
in the EMPTY state). Freed storage keeps its last contents in `mem`; it is only taken out of
the buckets. -/
def Entry.release (P : BSStringPool) (a_entry : Option Ptr) : BSStringPool × Option Ptr :=
  match a_entry with
  | none => (P, none)
  | some p =>
    let n := (P.mem p).refs - 1
    let mem := setEntry P.mem p { P.mem p with refs := n }
    if n = 0 then
      ({ P with mem := mem, buckets := fun k => (P.buckets k).filter (fun q => q != p) }, none)
    else
      ({ P with mem := mem }, none)

/-- Modelled from the spec: the comparison of a bucket candidate with the requested text,
"exact content comparison (length then byte/code-unit compare)" on the "case-folded view of
the content" in the insensitive mode. -/
def matchesText (cs : Bool) (mem : Mem) (p : Ptr) (text : List CharT) : Bool :=
  match (mem p).data with
  | some b =>
    (mem p).length == text.length &&
      (normalize cs (b.take (mem p).length) == normalize cs text)
  | none => false

/-- Modelled from the spec: `get_or_create(text, case_mode)`: hash the normalized form, look up
the bucket, compare its candidates; "if an equal Entry exists, increment its reference count
and return it; otherwise allocate a new Entry holding a private copy of the string content,
insert it into the bucket with reference count 1, and return it". The hashing primitive `hash`
(of the missing `CRC.h`) is a parameter. -/
def get_or_create (hash : List CharT → Nat) (P : BSStringPool) (text : List CharT) (cs : Bool) :
    BSStringPool × Ptr :=
  let k := hash (normalize cs text)
  match (P.buckets k).find? (fun p => matchesText cs P.mem p text) with
  | some p => (Entry.acquire P p, p)
  | none =>
    let p := P.next
    ({ mem := setEntry P.mem p
              { leaf := some p, size := text.length, length := text.length,
                data := some (text ++ [0]), refs := 1 },
       buckets := fun j => if j = k then p :: P.buckets j else P.buckets j,
       next := p + 1 }, p)

/-- The pool with no Entries. -/
def init : BSStringPool :=
  { mem := fun _ => { leaf := none, size := 0, length := 0, data := none, refs := 0 },
    buckets := fun _ => [],
    next := 0 }

end BSStringPool

/-- Modelled from the spec: `GetEntry<value_type>(a_result, a_string, a_caseSensitive)` of the
missing `BSStringPool.h`: `get_or_create` on the NUL-terminated string at `a_string`; the second
component is the Entry written to `a_result`. `none` when `a_string` is null or unterminated. -/
def GetEntry (hash : List CharT → Nat) (P : BSStringPool) (a_string : ConstPointer) (cs : Bool) :
    Option (BSStringPool × Option Ptr) :=
  match a_string with
  | none => none
  | some buf =>
    match cstr buf with
    | none => none
    | some text =>
      let r := BSStringPool.get_or_create hash P text cs
      some (r.1, some r.2)

/-- A call the handle makes into the pool, with its arguments. -/
inductive PoolOp where
  | acquire (e : Ptr)
  | release (e : Option Ptr)
  | getEntry (a_string : ConstPointer) (cs : Bool)
deriving DecidableEq, Repr

namespace detail

/-- The handle `detail::BSFixedString<CharT, CS>`: its only member is `BSStringPool::Entry* _data{ nullptr }`. -/
structure BSFixedString where
  _data : Option Ptr := none
deriving DecidableEq, Repr

/-- The static buffer `static constexpr const value_type EMPTY[]{ 0 }`. -/
def EMPTY : List CharT := [0]

namespace BSFixedString

/-- Accessor `data()`: `cstr = _data ? _data->data<value_type>() : nullptr; return cstr ? cstr : EMPTY`. -/
def data (mem : Mem) (h : BSFixedString) : ConstPointer :=
  let cstr : ConstPointer :=
    match h._data with
    | some p => (mem p).data
    | none => none
  match cstr with
  | some b => some b
  | none => some EMPTY

/-- Accessor `c_str()`: `return data()`. -/
def c_str (mem : Mem) (h : BSFixedString) : ConstPointer := data mem h

/-- Accessor `size()`: `_data ? _data->size() : 0`. -/
def size (mem : Mem) (h : BSFixedString) : Nat :=
  match h._data with
  | some p => (mem p).size
  | none => 0

/-- Accessor `length()`: `_data ? _data->length() : 0`. -/
def length (mem : Mem) (h : BSFixedString) : Nat :=
  match h._data with
  | some p => (mem p).length
  | none => 0

/-- Accessor `empty()`: `size() == 0`. -/
def empty (mem : Mem) (h : BSFixedString) : Bool := size mem h == 0

/-- Conversion `operator std::basic_string_view<value_type>()`: `{ c_str(), length() }`. -/
def toStringView (mem : Mem) (h : BSFixedString) : StringView :=
  { data := c_str mem h, length := length mem h }

/-- The lambda `leaf` of `operator==`: `a_elem._data ? a_elem._data->leaf() : nullptr`. -/
def leaf (mem : Mem) (a_elem : BSFixedString) : Option Ptr :=
  match a_elem._data with
  | some p => (mem p).leaf
  | none => none

/-- Equality `operator==(const BSFixedString&, const BSFixedString&)`. -/
def opEq (mem : Mem) (a_lhs a_rhs : BSFixedString) : Bool :=
  let lLeaf := leaf mem a_lhs
  let rLeaf := leaf mem a_rhs
  if lLeaf = rLeaf then true
  else if empty mem a_lhs && empty mem a_rhs then true
  else false

/-- Inequality `operator!=(const BSFixedString&, const BSFixedString&)`: `!(a_lhs == a_rhs)`. -/
def opNe (mem : Mem) (a_lhs a_rhs : BSFixedString) : Bool := !(opEq mem a_lhs a_rhs)

/-- The private `strncmp(a_lhs, a_rhs, a_length)`: `std::strncmp` when `CS`, else `_strnicmp`
(for `wchar_t`: `std::wcsncmp`, else `_wcsnicmp`). A null pointer has no readable code unit. -/
def strncmp (cs : Bool) (a_lhs a_rhs : ConstPointer) (a_length : Nat) : Option Int :=
  if cs then std_strncmp (a_lhs.getD []) (a_rhs.getD []) a_length
  else strnicmp (a_lhs.getD []) (a_rhs.getD []) a_length

/-- Equality `operator==(const BSFixedString&, std::basic_string_view<value_type>)`. -/
def opEqView (cs : Bool) (mem : Mem) (a_lhs : BSFixedString) (a_rhs : StringView) : Option Bool :=
  if empty mem a_lhs && a_rhs.empty then some true
  else if length mem a_lhs ≠ a_rhs.length then some false
  else (strncmp cs (c_str mem a_lhs) a_rhs.data (length mem a_lhs)).map (fun r => r == 0)

/-- A program state: the pool, the member `_data` of every handle object (by address), and the
calls made into the pool so far. -/
structure State where
  pool : BSStringPool
  handles : Nat → BSFixedString
  log : List PoolOp

/-- Write `h` to the handle object at address `this`. -/
def setHandle (hs : Nat → BSFixedString) (this : Nat) (h : BSFixedString) : Nat → BSFixedString :=
  fun i => if i = this then h else hs i

/-- The private `try_acquire()`: `if (_data) { _data->acquire(); }`. -/
def try_acquire (st : State) (this : Nat) : State :=
  match (st.handles this)._data with
  | some p =>
    { st with pool := BSStringPool.Entry.acquire st.pool p, log := st.log ++ [PoolOp.acquire p] }
  | none => st

/-- The private `try_release()`: `BSStringPool::Entry::release(_data)`. -/
def try_release (st : State) (this : Nat) : State :=
  let r := BSStringPool.Entry.release st.pool (st.handles this)._data
  { pool := r.1,
    handles := setHandle st.handles this { _data := r.2 },
    log := st.log ++ [PoolOp.release (st.handles this)._data] }

/-- The call `GetEntry<value_type>(_data, a_string, CS)` made by the handle `this`. -/
def callGetEntry (hash : List CharT → Nat) (cs : Bool) (st : State) (this : Nat)
    (a_string : ConstPointer) : Option State :=
  match GetEntry hash st.pool a_string cs with
  | none => none
  | some r =>
    some { pool := r.1,
           handles := setHandle st.handles this { _data := r.2 },
           log := st.log ++ [PoolOp.getEntry a_string cs] }

/-- The default constructor: `_data{ nullptr }`. -/
def ctor_default (st : State) (this : Nat) : State :=
  { st with handles := setHandle st.handles this { _data := none } }

/-- The copy constructor: `_data(a_rhs._data)`, then `try_acquire()`. -/
def ctor_copy (st : State) (this a_rhs : Nat) : State :=
  let st1 := { st with handles := setHandle st.handles this { _data := (st.handles a_rhs)._data } }
  try_acquire st1 this

/-- The move constructor: `_data(a_rhs._data)`, then `a_rhs._data = nullptr`. -/
def ctor_move (st : State) (this a_rhs : Nat) : State :=
  let st1 := { st with handles := setHandle st.handles this { _data := (st.handles a_rhs)._data } }
  { st1 with handles := setHandle st1.handles a_rhs { _data := none } }

/-- The constructor from `const_pointer`: `if (a_string) { GetEntry(_data, a_string, CS); }`. -/
def ctor_cstr (hash : List CharT → Nat) (cs : Bool) (st : State) (this : Nat)
    (a_string : ConstPointer) : Option State :=
  let st1 := { st with handles := setHandle st.handles this { _data := none } }
  if a_string.isSome then callGetEntry hash cs st1 this a_string
  else some st1

/-- The constructor from a string-view-convertible value:
`if (!view.empty()) { GetEntry(_data, view.data(), CS); }`. -/
def ctor_view (hash : List CharT → Nat) (cs : Bool) (st : State) (this : Nat)
    (view : StringView) : Option State :=
  let st1 := { st with handles := setHandle st.handles this { _data := none } }
  if !view.empty then callGetEntry hash cs st1 this view.data
  else some st1

/-- The destructor: `try_release()`. -/
def dtor (st : State) (this : Nat) : State := try_release st this

/-- Copy assignment: `if (this != addressof(a_rhs)) { try_release(); _data = a_rhs._data;
try_acquire(); }`. -/
def assign_copy (st : State) (this a_rhs : Nat) : State :=
  if this ≠ a_rhs then
    let st1 := try_release st this
    let st2 := { st1 with
      handles := setHandle st1.handles this { _data := (st1.handles a_rhs)._data } }
    try_acquire st2 this
  else st

/-- Move assignment: `if (this != addressof(a_rhs)) { _data = a_rhs._data;
a_rhs._data = nullptr; }`. -/
def assign_move (st : State) (this a_rhs : Nat) : State :=
  if this ≠ a_rhs then
    let st1 := { st with
      handles := setHandle st.handles this { _data := (st.handles a_rhs)._data } }
    { st1 with handles := setHandle st1.handles a_rhs { _data := none } }
  else st

/-- Assignment from `const_pointer`: `try_release(); if (a_string) { GetEntry(_data, a_string,
CS); }`. -/
def assign_cstr (hash : List CharT → Nat) (cs : Bool) (st : State) (this : Nat)
    (a_string : ConstPointer) : Option State :=
  let st1 := try_release st this
  if a_string.isSome then callGetEntry hash cs st1 this a_string
  else some st1

/-- Assignment from a string-view-convertible value: `try_release(); if (!view.empty())
{ GetEntry(_data, view.data(), CS); }`. -/
def assign_view (hash : List CharT → Nat) (cs : Bool) (st : State) (this : Nat)
    (view : StringView) : Option State :=
  let st1 := try_release st this
  if !view.empty then callGetEntry hash cs st1 this view.data
  else some st1

/-- The reference count of the Entry at `p`. -/
def refs (st : State) (p : Ptr) : Nat := (st.pool.mem p).refs

/-- The code unit the instantiation compares: itself when `CS`, lowercased otherwise. -/
def caseFold (cs : Bool) (c : CharT) : CharT := if cs then c else tolower c

/-- The Entries in the buckets of the pool report the same `size()` and `length()`. -/
def SizesAgree (P : BSStringPool) : Prop :=
  ∀ k p, p ∈ P.buckets k → (P.mem p).size = (P.mem p).length

/-- The Entry at `p` is laid out as `get_or_create` lays an Entry out: it is its own leaf,
`size()` and `length()` agree, and its content pointer is to `length()` code units followed by
the terminator. -/
def Interned (mem : Mem) (p : Ptr) : Prop :=
  (mem p).leaf = some p ∧ (mem p).size = (mem p).length ∧
    ∃ t : List CharT, (mem p).data = some (t ++ [0]) ∧ t.length = (mem p).length

/-- The state before any handle exists: the empty pool, every handle slot null, no call made. -/
def State.init : State :=
  { pool := BSStringPool.init, handles := fun _ => { _data := none }, log := [] }

/-- A sample hashing primitive (the sum of the code units), to evaluate the pool on inputs. -/
def sumHash : List CharT → Nat := List.sum

/-- The constructor `std::basic_string_view(const CharT* s)`: the pointer with the length of the
NUL-terminated string at it; `none` when the pointer is null or the string unterminated. -/
def viewOfCStr (s : ConstPointer) : Option StringView :=
  (s.bind cstr).map (fun text => { data := s, length := text.length })

/-- Inequality `operator!=(const BSFixedString&, std::basic_string_view)`: `!(a_lhs == a_rhs)`. -/
def opNeView (cs : Bool) (mem : Mem) (a_lhs : BSFixedString) (a_rhs : StringView) : Option Bool :=
  (opEqView cs mem a_lhs a_rhs).map (fun b => !b)

/-- Equality `operator==(std::basic_string_view, const BSFixedString&)`: `a_rhs == a_lhs`. -/
def opEqViewL (cs : Bool) (mem : Mem) (a_lhs : StringView) (a_rhs : BSFixedString) : Option Bool :=
  opEqView cs mem a_rhs a_lhs

/-- Inequality `operator!=(std::basic_string_view, const BSFixedString&)`: `!(a_lhs == a_rhs)`. -/
def opNeViewL (cs : Bool) (mem : Mem) (a_lhs : StringView) (a_rhs : BSFixedString) : Option Bool :=
  (opEqViewL cs mem a_lhs a_rhs).map (fun b => !b)

/-- Equality `operator==(const BSFixedString&, const_pointer)`:
`a_lhs == std::basic_string_view<value_type>(a_rhs ? a_rhs : EMPTY)`. -/
def opEqPtr (cs : Bool) (mem : Mem) (a_lhs : BSFixedString) (a_rhs : ConstPointer) : Option Bool :=
  let s : ConstPointer :=
    match a_rhs with
    | some b => some b
    | none => some EMPTY
  (viewOfCStr s).bind (fun v => opEqView cs mem a_lhs v)

/-- Inequality `operator!=(const BSFixedString&, const_pointer)`: `!(a_lhs == a_rhs)`. -/
def opNePtr (cs : Bool) (mem : Mem) (a_lhs : BSFixedString) (a_rhs : ConstPointer) : Option Bool :=
  (opEqPtr cs mem a_lhs a_rhs).map (fun b => !b)

/-- Equality `operator==(const_pointer, const BSFixedString&)`: `a_rhs == a_lhs`. -/
def opEqPtrL (cs : Bool) (mem : Mem) (a_lhs : ConstPointer) (a_rhs : BSFixedString) : Option Bool :=
  opEqPtr cs mem a_rhs a_lhs

/-- Inequality `operator!=(const_pointer, const BSFixedString&)`: `!(a_lhs == a_rhs)`. -/
def opNePtrL (cs : Bool) (mem : Mem) (a_lhs : ConstPointer) (a_rhs : BSFixedString) : Option Bool :=
  (opEqPtrL cs mem a_lhs a_rhs).map (fun b => !b)

/-- The index `front()` reads: `data()[0]`. -/
def frontIndex : Nat := 0

/-- The index `back()` reads: `size() - 1`, computed in `size_type = std::uint32_t`. -/
def backIndex (mem : Mem) (h : BSFixedString) : Nat := (size mem h + (2 ^ 32 - 1)) % 2 ^ 32

/-- Accessor `front()`: `data()[0]`; `none` when the read leaves the buffer. -/
def front (mem : Mem) (h : BSFixedString) : Option CharT :=
  (data mem h).bind (fun b => b[frontIndex]?)

/-- Accessor `back()`: `data()[size() - 1]`; `none` when the read leaves the buffer. -/
def back (mem : Mem) (h : BSFixedString) : Option CharT :=
  (data mem h).bind (fun b => b[backIndex mem h]?)

/-- A sample Entry storage: at address 0 the Entry of the zero-length text, at address 1 the
Entry of "a", both as `get_or_create` lays them out; no Entry elsewhere. -/
def sampleMem : Mem := fun p =>
  if p = 0 then { leaf := some 0, size := 0, length := 0, data := some [0], refs := 1 }
  else if p = 1 then { leaf := some 1, size := 1, length := 1, data := some [97, 0], refs := 1 }
  else { leaf := none, size := 0, length := 0, data := none, refs := 0 }

/-- Two Entries that differ in their reference counts at most. -/
def SameEntry (e f : BSStringPool.Entry) : Prop :=
  e.leaf = f.leaf ∧ e.size = f.size ∧ e.length = f.length ∧ e.data = f.data

/-- The text an Entry stores: the first `length()` code units at its content pointer. -/
def entryText (e : BSStringPool.Entry) : List CharT := (e.data.getD []).take e.length

/-- The invariant of the pool: every Entry in a bucket is laid out as `get_or_create` lays it
out, stores a text without terminator, sits in the bucket of the hash of its normalized text,
is the only Entry of the pool with that normalized text, and lies below the next address. -/
structure PoolInv (hash : List CharT → Nat) (cs : Bool) (P : BSStringPool) : Prop where
  interned : ∀ k p, p ∈ P.buckets k → Interned P.mem p
  noNul : ∀ k p, p ∈ P.buckets k → (0 : Nat) ∉ entryText (P.mem p)
  placed : ∀ k p, p ∈ P.buckets k →
    k = hash (BSStringPool.normalize cs (entryText (P.mem p)))
  unique : ∀ k p q, p ∈ P.buckets k → q ∈ P.buckets k →
    BSStringPool.normalize cs (entryText (P.mem p))
      = BSStringPool.normalize cs (entryText (P.mem q)) → p = q
  fresh : ∀ k p, p ∈ P.buckets k → p < P.next

/-- The number of the handles at the addresses `live` that are bound to the Entry at `p`. -/
def boundCount (hs : Nat → BSFixedString) (live : List Nat) (p : Ptr) : Nat :=
  live.countP (fun i => (hs i)._data == some p)

/-- The invariant of the handles at the addresses `live`: every one that is bound is bound to
an Entry in a bucket of the pool, and the count of every Entry is at least the number of
handles bound to it. -/
structure HandleInv (st : State) (live : List Nat) : Prop where
  nodup : live.Nodup
  bound_live : ∀ i, i ∈ live → ∀ p, (st.handles i)._data = some p →
    ∃ k, p ∈ st.pool.buckets k
  counted : ∀ p, boundCount st.handles live p ≤ refs st p

/-- A handle operation of a client program, with the addresses of the handles it works on. -/
inductive Op where
  | ctor_default (this : Nat)
  | ctor_copy (this a_rhs : Nat)
  | ctor_move (this a_rhs : Nat)
  | ctor_cstr (this : Nat) (a_string : ConstPointer)
  | ctor_view (this : Nat) (view : StringView)
  | assign_copy (this a_rhs : Nat)
  | assign_move (this a_rhs : Nat)
  | assign_cstr (this : Nat) (a_string : ConstPointer)
  | assign_view (this : Nat) (view : StringView)
  | dtor (this : Nat)
deriving DecidableEq, Repr

/-- One operation of a client program on the state and the addresses `live` of the handles
that exist. A constructor runs at an address where no handle exists, every other operation
on handles that exist, and the destructor ends the handle's existence; `none` when the
operation is not one a program can make, or a text is read beyond its buffer. -/
def step (hash : List CharT → Nat) (cs : Bool) (st : State) (live : List Nat) :
    Op → Option (State × List Nat)
  | Op.ctor_default d =>
    if d ∈ live then none else some (ctor_default st d, d :: live)
  | Op.ctor_copy d s =>
    if d ∉ live ∧ s ∈ live then some (ctor_copy st d s, d :: live) else none
  | Op.ctor_move d s =>
    if d ∉ live ∧ s ∈ live then some (ctor_move st d s, d :: live) else none
  | Op.ctor_cstr d a =>
    if d ∈ live then none else (ctor_cstr hash cs st d a).map (fun st1 => (st1, d :: live))
  | Op.ctor_view d v =>
    if d ∈ live then none else (ctor_view hash cs st d v).map (fun st1 => (st1, d :: live))
  | Op.assign_copy d s =>
    if d ∈ live ∧ s ∈ live then some (assign_copy st d s, live) else none
  | Op.assign_move d s =>
    if d ∈ live ∧ s ∈ live then some (assign_move st d s, live) else none
  | Op.assign_cstr d a =>
    if d ∈ live then (assign_cstr hash cs st d a).map (fun st1 => (st1, live)) else none
  | Op.assign_view d v =>
    if d ∈ live then (assign_view hash cs st d v).map (fun st1 => (st1, live)) else none
  | Op.dtor d =>
    if d ∈ live then some (dtor st d, live.erase d) else none

/-- A finite sequence of operations, from a state and the handles that exist in it. -/
def run (hash : List CharT → Nat) (cs : Bool) :
    State × List Nat → List Op → Option (State × List Nat)
  | sys, [] => some sys
  | sys, op :: ops =>
    match step hash cs sys.1 sys.2 op with
    | none => none
    | some sys1 => run hash cs sys1 ops

/-- The pool `Q` is a later state of the pool `P`: its next address is no lower, and every
Entry below the next address of `P` differs in its count at most. -/
def Stable (P Q : BSStringPool) : Prop :=
  P.next ≤ Q.next ∧ ∀ p, p < P.next → SameEntry (Q.mem p) (P.mem p)

/-- The operation constructs the handle at `i` from the NUL-terminated text at `buf`, through
the `const_pointer` constructor or through the view constructor on a non-empty view whose
pointer is to `buf`. -/
def ConstructsFrom (op : Op) (i : Nat) (buf : List CharT) : Prop :=
  op = Op.ctor_cstr i (some buf) ∨
    ∃ v : StringView, v.length ≠ 0 ∧ v.data = some buf ∧ op = Op.ctor_view i v

/-- The Entry at `p` has content as the handle reads it: `size()` and `length()` agree, its
content pointer is to `length()` code units followed by the terminator, and its leaf is null
only if its size is 0, as for the null handle. The leaf may be another Entry than `p`. -/
def HasContent (mem : Mem) (p : Ptr) : Prop :=
  ((mem p).leaf = none → (mem p).size = 0) ∧ (mem p).size = (mem p).length ∧
    ∃ t : List CharT, (mem p).data = some (t ++ [0]) ∧ t.length = (mem p).length

/-- A sample Entry storage with two Entries that share a leaf: at address 0 the Entry of "a",
its own leaf; at address 1 a second Entry of "a" whose leaf is the Entry at address 0; at
address 2 the Entry of "b", its own leaf; no Entry elsewhere. -/
def sharedLeafMem : Mem := fun p =>
  if p = 0 then { leaf := some 0, size := 1, length := 1, data := some [97, 0], refs := 1 }
  else if p = 1 then { leaf := some 0, size := 1, length := 1, data := some [97, 0], refs := 1 }
  else if p = 2 then { leaf := some 2, size := 1, length := 1, data := some [98, 0], refs := 1 }
  else { leaf := none, size := 0, length := 0, data := none, refs := 0 }

end BSFixedString
end detail
end RE


/-! ## Theorems -/

open RE RE.detail RE.detail.BSFixedString

/-- C1: `operator==` on two handles is true exactly when both resolve to the identical leaf
Entry (a null handle resolving to the null leaf) or both are `empty()`; otherwise it is false. -/
theorem C1_opEq_iff_same_leaf_or_both_empty (mem : Mem) (a b : BSFixedString) :
    (opEq mem a b = true ↔
      (leaf mem a = leaf mem b ∨ (empty mem a = true ∧ empty mem b = true))) ∧
    (opEq mem a b = false ↔
      ¬ (leaf mem a = leaf mem b ∨ (empty mem a = true ∧ empty mem b = true))) := by
  unfold opEq
  by_cases h : leaf mem a = leaf mem b
  · simp [h]
  · by_cases e : (empty mem a && empty mem b) = true
    · have e2 := e
      simp only [Bool.and_eq_true] at e2
      simp [h, e, e2]
    · have e2 := e
      simp only [Bool.and_eq_true] at e2
      simp [h, e, e2]

/-! ### Reading and writing handle slots and Entries -/

theorem setHandle_same (hs : Nat → BSFixedString) (i : Nat) (h : BSFixedString) :
    setHandle hs i h i = h := by
  simp [setHandle]

theorem setHandle_other (hs : Nat → BSFixedString) (i j : Nat) (h : BSFixedString) (hij : j ≠ i) :
    setHandle hs i h j = hs j := by
  simp [setHandle, hij]

theorem setEntry_same (mem : Mem) (p : Ptr) (e : BSStringPool.Entry) : setEntry mem p e p = e := by
  simp [setEntry]

theorem setEntry_other (mem : Mem) (p q : Ptr) (e : BSStringPool.Entry) (hqp : q ≠ p) :
    setEntry mem p e q = mem q := by
  simp [setEntry, hqp]

/-- The count of `p` after `acquire` on `p` is one more. -/
theorem acquire_refs_same (P : BSStringPool) (p : Ptr) :
    ((BSStringPool.Entry.acquire P p).mem p).refs = (P.mem p).refs + 1 := by
  simp [BSStringPool.Entry.acquire, setEntry]

/-- The call `acquire` on `p` leaves every other Entry as it was. -/
theorem acquire_mem_other (P : BSStringPool) (p q : Ptr) (hqp : q ≠ p) :
    (BSStringPool.Entry.acquire P p).mem q = P.mem q := by
  simp [BSStringPool.Entry.acquire, setEntry, hqp]

/-- The count of `p` after `release` on `p` is one less. -/
theorem release_refs_same (P : BSStringPool) (p : Ptr) :
    (((BSStringPool.Entry.release P (some p)).1).mem p).refs = (P.mem p).refs - 1 := by
  unfold BSStringPool.Entry.release
  by_cases h : (P.mem p).refs - 1 = 0 <;> simp [h, setEntry]

/-- The call `release` on `p` leaves every other Entry as it was. -/
theorem release_mem_other (P : BSStringPool) (p q : Ptr) (hqp : q ≠ p) :
    ((BSStringPool.Entry.release P (some p)).1).mem q = P.mem q := by
  unfold BSStringPool.Entry.release
  by_cases h : (P.mem p).refs - 1 = 0 <;> simp [h, setEntry, hqp]

/-- The reference passed to `release` is null afterwards. -/
theorem release_snd (P : BSStringPool) (e : Option Ptr) :
    (BSStringPool.Entry.release P e).2 = none := by
  unfold BSStringPool.Entry.release
  cases e with
  | none => rfl
  | some p => by_cases h : (P.mem p).refs - 1 = 0 <;> simp [h]

/-- The call `try_acquire` writes no handle. -/
theorem try_acquire_handles (st : State) (i : Nat) : (try_acquire st i).handles = st.handles := by
  unfold try_acquire
  split <;> rfl

/-! ### C2: reassignment and the old Entry -/

/-- C2 (the code at the failing input): a handle at address 0 is bound to the Entry E of "a"
(address 0, count 1), a handle at address 1 to the Entry of "b" (address 1). Move-assigning
handle 1 to handle 0 rebinds handle 0 to the other Entry, makes no call into the pool, and
leaves E's count at 1, although neither handle references E any more. -/
theorem C2_assign_move_does_not_release_old_entry :
    ∃ s1 s2 : State,
      ctor_cstr sumHash true State.init 0 (some [97, 0]) = some s1 ∧
      ctor_cstr sumHash true s1 1 (some [98, 0]) = some s2 ∧
      (s2.handles 0)._data = some 0 ∧ refs s2 0 = 1 ∧ (s2.handles 1)._data = some 1 ∧
      ((assign_move s2 0 1).handles 0)._data = some 1 ∧
      ((assign_move s2 0 1).handles 1)._data = none ∧
      (assign_move s2 0 1).log = s2.log ∧
      refs (assign_move s2 0 1) 0 = 1 := by
  refine ⟨_, _, rfl, rfl, ?_, ?_, ?_, ?_, ?_, ?_, ?_⟩ <;> decide

/-! ### C3: moves -/

/-- C3: move construction of `d` from `s`, and move assignment of `s` to a distinct `d`, give
`d` the reference `s` held, leave `s` with the null reference, leave every other handle, the
whole pool (so every reference count) and the log of pool calls unchanged; move-assigning a
handle to itself changes nothing at all. -/
theorem C3_move_transfers_reference (st : State) (d s : Nat) (hds : d ≠ s) :
    ((ctor_move st d s).handles d = st.handles s ∧
      ((ctor_move st d s).handles s)._data = none ∧
      (∀ i, i ≠ d → i ≠ s → (ctor_move st d s).handles i = st.handles i) ∧
      (ctor_move st d s).pool = st.pool ∧
      (∀ p, refs (ctor_move st d s) p = refs st p) ∧
      (ctor_move st d s).log = st.log) ∧
    ((assign_move st d s).handles d = st.handles s ∧
      ((assign_move st d s).handles s)._data = none ∧
      (∀ i, i ≠ d → i ≠ s → (assign_move st d s).handles i = st.handles i) ∧
      (assign_move st d s).pool = st.pool ∧
      (∀ p, refs (assign_move st d s) p = refs st p) ∧
      (assign_move st d s).log = st.log) ∧
    assign_move st s s = st := by
  refine ⟨⟨?_, ?_, ?_, rfl, fun _ => rfl, rfl⟩, ⟨?_, ?_, ?_, ?_, ?_, ?_⟩, ?_⟩
  · simp [ctor_move, setHandle, hds]
  · simp [ctor_move, setHandle]
  · intro i hid his
    simp [ctor_move, setHandle, hid, his]
  · simp [assign_move, setHandle, hds]
  · simp [assign_move, setHandle, hds]
  · intro i hid his
    simp [assign_move, setHandle, hds, hid, his]
  · simp [assign_move, hds]
  · intro p
    simp [assign_move, hds, refs]
  · simp [assign_move, hds]
  · simp [assign_move]

/-- C3 at a concrete input: the handle at address 1, bound to the Entry of "b", is
move-assigned to the handle at address 0. -/
theorem C3_move_transfers_reference_witness :
    ∃ s1 s2 : State,
      ctor_cstr sumHash true State.init 0 (some [97, 0]) = some s1 ∧
      ctor_cstr sumHash true s1 1 (some [98, 0]) = some s2 ∧
      (s2.handles 1)._data = some 1 ∧
      (0 : Nat) ≠ 1 ∧
      (assign_move s2 0 1).handles 0 = s2.handles 1 ∧
      ((assign_move s2 0 1).handles 1)._data = none ∧
      (assign_move s2 0 1).pool = s2.pool ∧
      assign_move s2 1 1 = s2 :=
  ⟨_, _, rfl, rfl, by decide, by decide,
    (C3_move_transfers_reference _ 0 1 (by decide)).2.1.1,
    (C3_move_transfers_reference _ 0 1 (by decide)).2.1.2.1,
    (C3_move_transfers_reference _ 0 1 (by decide)).2.1.2.2.2.1,
    (C3_move_transfers_reference _ 0 1 (by decide)).2.2⟩

/-! ### C4: copy, then destroy the copy -/

/-- C4: copy-constructing `d` from a handle `s` bound to `E` binds `d` to `E`, makes the single
pool call `acquire(E)`, raises the count of `E` by exactly one, changes no other Entry and
leaves `s` as it was; destroying `d` afterwards makes the single call `release(E)` and every
Entry's count is what it was before the copy. Copy-constructing from a handle with the null
reference yields the null reference, with the pool and the log of pool calls unchanged. -/
theorem C4_copy_then_destroy (st : State) (d s : Nat) :
    (∀ E : Ptr, (st.handles s)._data = some E →
      ((ctor_copy st d s).handles d)._data = some E ∧
      (ctor_copy st d s).log = st.log ++ [PoolOp.acquire E] ∧
      refs (ctor_copy st d s) E = refs st E + 1 ∧
      (∀ q, q ≠ E → (ctor_copy st d s).pool.mem q = st.pool.mem q) ∧
      (ctor_copy st d s).handles s = st.handles s ∧
      (dtor (ctor_copy st d s) d).log = (ctor_copy st d s).log ++ [PoolOp.release (some E)] ∧
      (∀ q, refs (dtor (ctor_copy st d s) d) q = refs st q)) ∧
    ((st.handles s)._data = none →
      ((ctor_copy st d s).handles d)._data = none ∧
      (ctor_copy st d s).pool = st.pool ∧
      (ctor_copy st d s).log = st.log) := by
  constructor
  · intro E hE
    have hd : ((ctor_copy st d s).handles d)._data = some E := by
      simp [ctor_copy, try_acquire, setHandle, hE]
    have hpool : (ctor_copy st d s).pool = BSStringPool.Entry.acquire st.pool E := by
      simp [ctor_copy, try_acquire, setHandle, hE]
    refine ⟨hd, ?_, ?_, ?_, ?_, ?_, ?_⟩
    · simp [ctor_copy, try_acquire, setHandle, hE]
    · simp only [refs, hpool]
      exact acquire_refs_same st.pool E
    · intro q hq
      rw [hpool]
      exact acquire_mem_other st.pool E q hq
    · by_cases h : s = d
      · subst h
        simp [ctor_copy, try_acquire_handles, setHandle]
      · simp [ctor_copy, try_acquire, setHandle, hE, h]
    · simp [dtor, try_release, hd]
    · intro q
      have hq : refs (dtor (ctor_copy st d s) d) q
          = (((BSStringPool.Entry.release (ctor_copy st d s).pool (some E)).1).mem q).refs := by
        simp [dtor, try_release, refs, hd]
      rw [hq, hpool]
      by_cases h : q = E
      · subst h
        rw [release_refs_same, acquire_refs_same]
        simp [refs]
      · rw [release_mem_other _ _ _ h, acquire_mem_other _ _ _ h]
        rfl
  · intro hN
    simp [ctor_copy, try_acquire, setHandle, hN]

/-- C4 at concrete inputs: the handle at address 0 is bound to the Entry of "a" (address 0,
count 1) and is copied to address 1, count 2, then the copy is destroyed, count 1; and the
null handle at address 5 of the initial state is copied to address 6. -/
theorem C4_copy_then_destroy_witness :
    ∃ s1 : State,
      ctor_cstr sumHash true State.init 0 (some [97, 0]) = some s1 ∧
      (s1.handles 0)._data = some 0 ∧ refs s1 0 = 1 ∧
      ((ctor_copy s1 1 0).handles 1)._data = some 0 ∧
      refs (ctor_copy s1 1 0) 0 = 1 + 1 ∧
      refs (dtor (ctor_copy s1 1 0) 1) 0 = 1 ∧
      ((ctor_copy State.init 6 5).handles 6)._data = none ∧
      (ctor_copy State.init 6 5).log = [] :=
  ⟨_, rfl, by decide, by decide,
    ((C4_copy_then_destroy _ 1 0).1 0 (by decide)).1,
    ((C4_copy_then_destroy _ 1 0).1 0 (by decide)).2.2.1,
    ((C4_copy_then_destroy _ 1 0).1 0 (by decide)).2.2.2.2.2.2 0,
    ((C4_copy_then_destroy State.init 6 5).2 (by decide)).1,
    ((C4_copy_then_destroy State.init 6 5).2 (by decide)).2.2⟩

/-! ### C5: the order of the pool calls of copy assignment -/

/-- C5 (counterexample): the handles at addresses 0 and 1 are both bound to the Entry of "a"
(address 0, count 2). The pool calls of the copy assignment of handle 1 to handle 0 are not
`acquire(E), release(E)` but `release(E), acquire(E)`, and after the first of them the count of
the Entry is 1, below its value 2 at entry. -/
theorem C5_counterexample_release_comes_first :
    ∃ s1 : State,
      ctor_cstr sumHash true State.init 0 (some [97, 0]) = some s1 ∧
      ((ctor_copy s1 1 0).handles 0)._data = some 0 ∧
      ((ctor_copy s1 1 0).handles 1)._data = some 0 ∧
      refs (ctor_copy s1 1 0) 0 = 2 ∧
      (assign_copy (ctor_copy s1 1 0) 0 1).log
        ≠ (ctor_copy s1 1 0).log ++ [PoolOp.acquire 0, PoolOp.release (some 0)] ∧
      (assign_copy (ctor_copy s1 1 0) 0 1).log
        = (ctor_copy s1 1 0).log ++ [PoolOp.release (some 0), PoolOp.acquire 0] ∧
      refs (try_release (ctor_copy s1 1 0) 0) 0 = 1 ∧
      refs (try_release (ctor_copy s1 1 0) 0) 0 < refs (ctor_copy s1 1 0) 0 := by
  refine ⟨_, rfl, ?_, ?_, ?_, ?_, ?_, ?_, ?_⟩ <;> decide

/-- C5 (amended): for a destination `d` holding `P` and a distinct source `s` holding `E`, the
pool calls of `d = s` are `release(P)` followed by `acquire(E)`. After the release the count of
`E` is its value at entry when `P` is another Entry and one less when `P` is `E`; the acquire
adds one, so when `P` is `E` (with a count of at least 1) the count of `E` ends at its value at
entry, and with a count of at least 2 at entry it is never 0 in between. Afterwards `d` holds
`E` and `s` still does. -/
theorem C5_copy_assignment_releases_then_acquires (st : State) (d s : Nat) (P E : Ptr)
    (hds : d ≠ s) (hP : (st.handles d)._data = some P) (hE : (st.handles s)._data = some E) :
    (assign_copy st d s).log = st.log ++ [PoolOp.release (some P), PoolOp.acquire E] ∧
    refs (try_release st d) E = (if E = P then refs st E - 1 else refs st E) ∧
    refs (assign_copy st d s) E = (if E = P then refs st E - 1 else refs st E) + 1 ∧
    (E = P → 1 ≤ refs st E → refs (assign_copy st d s) E = refs st E) ∧
    (E = P → 2 ≤ refs st E → 1 ≤ refs (try_release st d) E) ∧
    ((assign_copy st d s).handles d)._data = some E ∧
    ((assign_copy st d s).handles s)._data = some E := by
  have hsd : s ≠ d := fun h => hds h.symm
  have h1 : refs (try_release st d) E = (if E = P then refs st E - 1 else refs st E) := by
    simp only [try_release, refs, hP]
    by_cases h : E = P
    · subst h
      simp [release_refs_same]
    · simp [h, release_mem_other _ _ _ h]
  have hs1 : ((try_release st d).handles s)._data = some E := by
    simp [try_release, setHandle, hsd, hE]
  have h2 : refs (assign_copy st d s) E = refs (try_release st d) E + 1 := by
    simp only [assign_copy, hds, ne_eq, not_false_eq_true, if_true, try_acquire, setHandle_same,
      hs1, refs]
    exact acquire_refs_same _ E
  refine ⟨?_, h1, ?_, ?_, ?_, ?_, ?_⟩
  · simp [assign_copy, hds, try_acquire, setHandle_same, hs1]
    simp [try_release, hP]
  · rw [h2, h1]
  · intro hEP hn
    rw [h2, h1]
    simp only [hEP, if_true]
    subst hEP
    omega
  · intro hEP hn
    rw [h1]
    simp only [hEP, if_true]
    subst hEP
    omega
  · simp [assign_copy, hds, try_acquire_handles, setHandle_same, hs1]
  · simp [assign_copy, hds, try_acquire_handles, setHandle, hsd, hs1]

/-- C5 (amended) at a concrete input: both handles bound to the Entry of "a" with count 2. -/
theorem C5_copy_assignment_releases_then_acquires_witness :
    ∃ s1 : State,
      ctor_cstr sumHash true State.init 0 (some [97, 0]) = some s1 ∧
      (0 : Nat) ≠ 1 ∧
      ((ctor_copy s1 1 0).handles 0)._data = some 0 ∧
      ((ctor_copy s1 1 0).handles 1)._data = some 0 ∧
      (assign_copy (ctor_copy s1 1 0) 0 1).log
        = (ctor_copy s1 1 0).log ++ [PoolOp.release (some 0), PoolOp.acquire 0] ∧
      refs (assign_copy (ctor_copy s1 1 0) 0 1) 0 = 2 :=
  ⟨_, rfl, by decide, by decide, by decide,
    (C5_copy_assignment_releases_then_acquires _ 0 1 0 0 (by decide) (by decide) (by decide)).1,
    (C5_copy_assignment_releases_then_acquires _ 0 1 0 0 (by decide) (by decide)
      (by decide)).2.2.2.1 rfl (by decide)⟩

/-! ### C6: construction from text -/

/-- The call `GetEntry` on a pointer to a terminated buffer is `get_or_create` on its text. -/
theorem GetEntry_of_cstr (hash : List CharT → Nat) (P : BSStringPool) (cs : Bool)
    (buf text : List CharT) (h : cstr buf = some text) :
    GetEntry hash P (some buf) cs
      = some ((BSStringPool.get_or_create hash P text cs).1,
              some (BSStringPool.get_or_create hash P text cs).2) := by
  simp [GetEntry, h]

/-- The handle's call of `GetEntry` on a terminated buffer: the state it leaves. -/
theorem callGetEntry_of_cstr (hash : List CharT → Nat) (cs : Bool) (st : State) (this : Nat)
    (buf text : List CharT) (h : cstr buf = some text) :
    callGetEntry hash cs st this (some buf)
      = some { pool := (BSStringPool.get_or_create hash st.pool text cs).1,
               handles := setHandle st.handles this
                 { _data := some (BSStringPool.get_or_create hash st.pool text cs).2 },
               log := st.log ++ [PoolOp.getEntry (some buf) cs] } := by
  simp [callGetEntry, GetEntry_of_cstr hash st.pool cs buf text h]

/-- C6 (counterexample): the `const_pointer` constructor is given a non-null pointer to the
zero-length string "" in the initial state. It calls `GetEntry` (one pool operation) and the
handle is bound to the Entry returned (address 0, of size 0), not left with the null
reference. -/
theorem C6_counterexample_empty_cstring_calls_pool :
    ∃ s1 : State,
      ctor_cstr sumHash true State.init 0 (some [0]) = some s1 ∧
      cstr [0] = some [] ∧
      (s1.handles 0)._data = some 0 ∧
      (s1.handles 0)._data ≠ none ∧
      s1.log = [PoolOp.getEntry (some [0]) true] ∧
      s1.log ≠ State.init.log ∧
      size s1.pool.mem (s1.handles 0) = 0 := by
  refine ⟨_, rfl, ?_, ?_, ?_, ?_, ?_, ?_⟩ <;> decide

/-- C6 (amended): a null `const_pointer`, and a view of length zero, construct the handle with
the null reference and make no pool call. A non-null `const_pointer` to a terminated string
(the zero-length string included), and a non-empty view whose buffer is terminated exactly at
the view's length, make exactly one pool call, `GetEntry` with that pointer and the case mode
`CS`, which is `get_or_create` on that text, and the handle holds the Entry it returns. -/
theorem C6_construction_from_text (hash : List CharT → Nat) (cs : Bool) (st : State)
    (this : Nat) :
    (∃ st1, ctor_cstr hash cs st this none = some st1 ∧
      (st1.handles this)._data = none ∧ st1.pool = st.pool ∧ st1.log = st.log) ∧
    (∀ v : StringView, v.length = 0 →
      ∃ st1, ctor_view hash cs st this v = some st1 ∧
        (st1.handles this)._data = none ∧ st1.pool = st.pool ∧ st1.log = st.log) ∧
    (∀ buf text : List CharT, cstr buf = some text →
      ∃ st1, ctor_cstr hash cs st this (some buf) = some st1 ∧
        st1.log = st.log ++ [PoolOp.getEntry (some buf) cs] ∧
        st1.pool = (BSStringPool.get_or_create hash st.pool text cs).1 ∧
        (st1.handles this)._data = some (BSStringPool.get_or_create hash st.pool text cs).2) ∧
    (∀ (v : StringView) (buf : List CharT), v.data = some buf → v.length ≠ 0 →
      cstr buf = some (buf.take v.length) →
      ∃ st1, ctor_view hash cs st this v = some st1 ∧
        st1.log = st.log ++ [PoolOp.getEntry (some buf) cs] ∧
        st1.pool = (BSStringPool.get_or_create hash st.pool (buf.take v.length) cs).1 ∧
        (st1.handles this)._data
          = some (BSStringPool.get_or_create hash st.pool (buf.take v.length) cs).2) := by
  refine ⟨?_, ?_, ?_, ?_⟩
  · exact ⟨_, rfl, by simp [setHandle], rfl, rfl⟩
  · intro v hv
    refine ⟨{ st with handles := setHandle st.handles this { _data := none } }, ?_, ?_, rfl, rfl⟩
    · simp [ctor_view, StringView.empty, hv]
    · simp [setHandle]
  · intro buf text h
    exact ⟨_, callGetEntry_of_cstr hash cs _ this buf text h, rfl, rfl, by simp [setHandle]⟩
  · intro v buf hd hl h
    have he : v.empty = false := by simp [StringView.empty, hl]
    have e : ctor_view hash cs st this v
        = callGetEntry hash cs { st with handles := setHandle st.handles this { _data := none } }
            this (some buf) := by
      simp [ctor_view, he, hd]
    rw [e]
    exact ⟨_, callGetEntry_of_cstr hash cs _ this buf _ h, rfl, rfl, by simp [setHandle]⟩

/-- C6 (amended) at concrete inputs: a view of length 0; the C string "ab"; the view of
length 2 over the buffer "ab" with its terminator. -/
theorem C6_construction_from_text_witness :
    (∃ st1, ctor_view sumHash true State.init 0 { data := some [0], length := 0 } = some st1 ∧
      (st1.handles 0)._data = none ∧ st1.pool = State.init.pool ∧ st1.log = State.init.log) ∧
    (cstr [97, 98, 0] = some [97, 98] ∧
      ∃ st1, ctor_cstr sumHash true State.init 0 (some [97, 98, 0]) = some st1 ∧
        st1.log = State.init.log ++ [PoolOp.getEntry (some [97, 98, 0]) true] ∧
        st1.pool = (BSStringPool.get_or_create sumHash State.init.pool [97, 98] true).1 ∧
        (st1.handles 0)._data
          = some (BSStringPool.get_or_create sumHash State.init.pool [97, 98] true).2) ∧
    (∃ st1, ctor_view sumHash true State.init 0 { data := some [97, 98, 0], length := 2 }
          = some st1 ∧
        st1.log = State.init.log ++ [PoolOp.getEntry (some [97, 98, 0]) true] ∧
        st1.pool = (BSStringPool.get_or_create sumHash State.init.pool
          (List.take 2 [97, 98, 0]) true).1 ∧
        (st1.handles 0)._data = some (BSStringPool.get_or_create sumHash State.init.pool
          (List.take 2 [97, 98, 0]) true).2) :=
  ⟨(C6_construction_from_text sumHash true State.init 0).2.1 _ rfl,
   ⟨by decide, (C6_construction_from_text sumHash true State.init 0).2.2.1 _ _ (by decide)⟩,
   (C6_construction_from_text sumHash true State.init 0).2.2.2
     { data := some [97, 98, 0], length := 2 } _ rfl (by decide) (by decide)⟩

/-! ### C7: equality against raw text -/

/-- Lowercasing maps only the terminator to the terminator. -/
theorem tolower_eq_zero_iff (c : Nat) : tolower c = 0 ↔ c = 0 := by
  unfold tolower
  by_cases h : 65 ≤ c ∧ c ≤ 90
  · rw [if_pos h]
    constructor <;> intro h0 <;> omega
  · rw [if_neg h]

/-- The case-sensitive library comparison, on two buffers with `n` readable code units of which
the first buffer's hold no terminator: it returns, and returns 0 exactly when the first `n`
code units agree position by position. -/
theorem std_strncmp_spec (n : Nat) : ∀ (a b : List CharT), n ≤ a.length → n ≤ b.length →
    (∀ i, i < n → a.getD i 0 ≠ 0) →
    ∃ r, std_strncmp a b n = some r ∧ (r = 0 ↔ ∀ i, i < n → a.getD i 0 = b.getD i 0) := by
  induction n with
  | zero =>
    intro a b _ _ _
    exact ⟨0, by simp [std_strncmp], by simp⟩
  | succ n ih =>
    intro a b ha hb hnz
    cases a with
    | nil => simp at ha
    | cons x l =>
      cases b with
      | nil => simp at hb
      | cons y r =>
        have hx : x ≠ 0 := by simpa using hnz 0 (Nat.succ_pos n)
        by_cases hxy : x = y
        · subst hxy
          obtain ⟨k, hk, hiff⟩ := ih l r (by simpa using ha) (by simpa using hb)
            (fun i hi => by simpa using hnz (i + 1) (Nat.succ_lt_succ hi))
          refine ⟨k, by simp [std_strncmp, hx, hk], ?_⟩
          rw [hiff]
          constructor
          · intro h i hi
            cases i with
            | zero => simp
            | succ j => simpa using h j (Nat.lt_of_succ_lt_succ hi)
          · intro h i hi
            simpa using h (i + 1) (Nat.succ_lt_succ hi)
        · refine ⟨(x : Int) - (y : Int), by simp [std_strncmp, hxy], ?_⟩
          constructor
          · intro h
            have hc : (x : Int) = (y : Int) := sub_eq_zero.mp h
            exact absurd (Int.ofNat.inj hc) hxy
          · intro h
            exact absurd (by simpa using h 0 (Nat.succ_pos n)) hxy

/-- The case-insensitive comparison is the case-sensitive one on the lowercased buffers. -/
theorem strnicmp_eq_map (n : Nat) : ∀ (a b : List CharT),
    strnicmp a b n = std_strncmp (a.map tolower) (b.map tolower) n := by
  induction n with
  | zero =>
    intro a b
    simp [strnicmp, std_strncmp]
  | succ n ih =>
    intro a b
    cases a with
    | nil => simp [strnicmp, std_strncmp]
    | cons x l =>
      cases b with
      | nil => simp [strnicmp, std_strncmp]
      | cons y r => simp [strnicmp, std_strncmp, ih l r]

/-- Reading a lowercased buffer reads the lowercased code unit. -/
theorem getD_map_tolower (a : List CharT) (i : Nat) :
    (a.map tolower).getD i 0 = tolower (a.getD i 0) := by
  induction a generalizing i with
  | nil => simp [tolower]
  | cons x l ih =>
    cases i with
    | zero => simp
    | succ j => simpa using ih j

/-- The handle's private `strncmp` under either case mode, on two buffers with `n` readable code
units of which the first buffer's hold no terminator: it returns, and returns 0 exactly when the
first `n` code units agree position by position under the case rule. -/
theorem strncmp_spec (cs : Bool) (n : Nat) (a b : List CharT) (q : ConstPointer)
    (hq : q.getD [] = b) (ha : n ≤ a.length)
    (hb : n ≤ b.length) (hnz : ∀ i, i < n → a.getD i 0 ≠ 0) :
    ∃ r, strncmp cs (some a) q n = some r ∧
      (r = 0 ↔ ∀ i, i < n → caseFold cs (a.getD i 0) = caseFold cs (b.getD i 0)) := by
  cases cs with
  | true =>
    obtain ⟨r, hr, hiff⟩ := std_strncmp_spec n a b ha hb hnz
    exact ⟨r, by simp [strncmp, hq, hr], by simpa [caseFold] using hiff⟩
  | false =>
    obtain ⟨r, hr, hiff⟩ := std_strncmp_spec n (a.map tolower) (b.map tolower)
      (by simpa using ha) (by simpa using hb)
      (fun i hi => by
        rw [getD_map_tolower, Ne, tolower_eq_zero_iff]
        exact hnz i hi)
    refine ⟨r, by simp [strncmp, hq, strnicmp_eq_map, hr], ?_⟩
    rw [hiff]
    simp only [caseFold, getD_map_tolower, Bool.false_eq_true, if_false]

/-- C7: for a handle whose content buffer `hb` holds `length()` code units with no terminator
among them (and whose `empty()` implies `length() = 0`), and a view `v` over a buffer `vb`
holding at least `v.length` code units (none, for a view with a null pointer),
`operator==(h, v)` returns, and is true exactly when
`h.length() = v.length()` and the code units of `h` and `v` agree position by position over that
length, as they are when `CS`, after lowercasing otherwise; when both are empty it is true. -/
theorem C7_opEqView_length_then_content (cs : Bool) (mem : Mem) (h : BSFixedString)
    (v : StringView) (hb vb : List CharT)
    (hdata : data mem h = some hb) (hlen : length mem h ≤ hb.length)
    (hnul : ∀ i, i < length mem h → hb.getD i 0 ≠ 0)
    (hsz : empty mem h = true → length mem h = 0)
    (vdata : v.data.getD [] = vb) (vlen : v.length ≤ vb.length) :
    (opEqView cs mem h v = some true ↔
      (length mem h = v.length ∧
        ∀ i, i < length mem h → caseFold cs (hb.getD i 0) = caseFold cs (vb.getD i 0))) ∧
    (opEqView cs mem h v = some true ∨ opEqView cs mem h v = some false) ∧
    (empty mem h = true → v.empty = true → opEqView cs mem h v = some true) := by
  have hboth : empty mem h = true → v.empty = true → opEqView cs mem h v = some true := by
    intro h1 h2
    simp [opEqView, h1, h2]
  by_cases he : empty mem h = true ∧ v.empty = true
  · have hv0 : v.length = 0 := by simpa [StringView.empty] using he.2
    have hh0 : length mem h = 0 := hsz he.1
    refine ⟨?_, Or.inl (hboth he.1 he.2), hboth⟩
    simp [hboth he.1 he.2, hv0, hh0]
  · have hne : (empty mem h && v.empty) = false := by
      cases h1 : empty mem h <;> cases h2 : v.empty <;> simp_all
    by_cases hl : length mem h = v.length
    · obtain ⟨r, hr, hiff⟩ :=
        strncmp_spec cs (length mem h) hb vb v.data vdata hlen (hl ▸ vlen) hnul
      have hval : opEqView cs mem h v = some (r == 0) := by
        simp only [opEqView, hne, Bool.false_eq_true, if_false, hl, ne_eq, not_true_eq_false,
          c_str, hdata]
        rw [hl] at hr
        simp [hr]
      refine ⟨?_, ?_, hboth⟩
      · rw [hval, ← hiff]
        simp [hl]
      · rw [hval]
        cases (r == 0) <;> simp
    · have hval : opEqView cs mem h v = some false := by
        simp [opEqView, hne, hl]
      refine ⟨?_, Or.inr hval, hboth⟩
      simp [hval, hl]

/-- C7 at a concrete input: the case-insensitive handle bound to the Entry of "Ab" against the
view of length 2 over the unterminated buffer "aBc". -/
theorem C7_opEqView_length_then_content_witness :
    ∃ s1 : State,
      ctor_cstr sumHash false State.init 0 (some [65, 98, 0]) = some s1 ∧
      data s1.pool.mem (s1.handles 0) = some [65, 98, 0] ∧
      length s1.pool.mem (s1.handles 0) = 2 ∧
      opEqView false s1.pool.mem (s1.handles 0) { data := some [97, 66, 99], length := 2 }
        = some true ∧
      (opEqView false s1.pool.mem (s1.handles 0) { data := some [97, 66, 99], length := 2 }
          = some true ↔
        (length s1.pool.mem (s1.handles 0) = 2 ∧
          ∀ i, i < length s1.pool.mem (s1.handles 0) →
            caseFold false (List.getD [65, 98, 0] i 0)
              = caseFold false (List.getD [97, 66, 99] i 0))) :=
  ⟨_, rfl, by decide, by decide, by decide,
    (C7_opEqView_length_then_content false _ _ { data := some [97, 66, 99], length := 2 }
      [65, 98, 0] [97, 66, 99] (by decide) (by decide) (by decide) (by decide) rfl
      (by decide)).1⟩

/-! ### C8: the null reference is a zero-length string -/

/-- The Entry `get_or_create` returns has the requested text's length as its `size()`, in a pool
whose bucket Entries report `size() = length()`. -/
theorem get_or_create_size (hash : List CharT → Nat) (P : BSStringPool) (text : List CharT)
    (cs : Bool) (hP : SizesAgree P) :
    ((BSStringPool.get_or_create hash P text cs).1.mem
      (BSStringPool.get_or_create hash P text cs).2).size = text.length := by
  cases hf : (P.buckets (hash (BSStringPool.normalize cs text))).find?
      (fun p => BSStringPool.matchesText cs P.mem p text) with
  | none =>
    simp only [BSStringPool.get_or_create, hf]
    simp [setEntry]
  | some p =>
    have hmem := List.mem_of_find?_eq_some hf
    have hmatch := List.find?_some hf
    have hlen : (P.mem p).length = text.length := by
      unfold BSStringPool.matchesText at hmatch
      cases hd : (P.mem p).data with
      | none => simp [hd] at hmatch
      | some b =>
        simp only [hd, Bool.and_eq_true, beq_iff_eq] at hmatch
        exact hmatch.1
    simp only [BSStringPool.get_or_create, hf]
    simp [BSStringPool.Entry.acquire, setEntry, hP _ p hmem, hlen]

/-- C8: a handle with no Entry has `size() = 0`, `length() = 0`, `empty()`, and `data()` and
`c_str()` are the non-null pointer to the static buffer `EMPTY`, whose first code unit is the
terminator, and its view has length 0; `data()` is non-null for every handle, and is `EMPTY`
also for a handle whose Entry has a null content pointer; the default-constructed handle
compares equal, on either side, to every handle that is `empty()` (one bound to an Entry of
size 0), to the handle constructed from a view of length 0, and to the handle constructed from
a `const_pointer` to the zero-length string. -/
theorem C8_null_reference_is_zero_length (mem : Mem) :
    (∀ h : BSFixedString, h._data = none →
      size mem h = 0 ∧ length mem h = 0 ∧ empty mem h = true ∧
      data mem h = some EMPTY ∧ c_str mem h = some EMPTY ∧ EMPTY.head? = some 0 ∧
      (toStringView mem h).length = 0 ∧ (toStringView mem h).empty = true) ∧
    (∀ h : BSFixedString, data mem h ≠ none ∧ c_str mem h ≠ none) ∧
    (∀ (h : BSFixedString) (p : Ptr), h._data = some p → (mem p).data = none →
      data mem h = some EMPTY) ∧
    (∀ g : BSFixedString, empty mem g = true →
      opEq mem { _data := none } g = true ∧ opEq mem g { _data := none } = true) ∧
    (∀ (hash : List CharT → Nat) (cs : Bool) (st : State) (d g : Nat) (v : StringView),
      d ≠ g → v.length = 0 →
      ∃ st1, ctor_view hash cs (ctor_default st d) g v = some st1 ∧
        (st1.handles d)._data = none ∧
        opEq st1.pool.mem (st1.handles d) (st1.handles g) = true) ∧
    (∀ (hash : List CharT → Nat) (cs : Bool) (st : State) (d g : Nat) (buf : List CharT),
      d ≠ g → SizesAgree st.pool → cstr buf = some [] →
      ∃ st1, ctor_cstr hash cs (ctor_default st d) g (some buf) = some st1 ∧
        (st1.handles d)._data = none ∧
        opEq st1.pool.mem (st1.handles d) (st1.handles g) = true) := by
  refine ⟨?_, ?_, ?_, ?_, ?_, ?_⟩
  · intro h hn
    simp [size, length, empty, data, c_str, toStringView, StringView.empty, hn, EMPTY]
  · intro h
    have hd : data mem h ≠ none := by
      unfold data
      cases h._data with
      | none => simp
      | some p => cases hd : (mem p).data <;> simp [hd]
    exact ⟨hd, hd⟩
  · intro h p hp hnull
    simp [data, hp, hnull]
  · intro g hg
    have hn : empty mem { _data := none } = true := by simp [empty, size]
    simp [opEq, hg, hn]
  · intro hash cs st d g v hdg hv
    refine ⟨{ (ctor_default st d) with
        handles := setHandle (ctor_default st d).handles g { _data := none } }, ?_, ?_, ?_⟩
    · simp [ctor_view, StringView.empty, hv]
    · simp [ctor_default, setHandle, hdg]
    · simp [ctor_default, setHandle, hdg, opEq, leaf]
  · intro hash cs st d g buf hdg hP hbuf
    refine ⟨_, callGetEntry_of_cstr hash cs _ g buf [] hbuf, ?_, ?_⟩
    · simp [ctor_default, setHandle, hdg]
    · have hsz := get_or_create_size hash st.pool [] cs hP
      have hg : empty (BSStringPool.get_or_create hash st.pool [] cs).1.mem
          { _data := some (BSStringPool.get_or_create hash st.pool [] cs).2 } = true := by
        simpa [empty, size] using hsz
      have hn : empty (BSStringPool.get_or_create hash st.pool [] cs).1.mem
          { _data := none } = true := by simp [empty, size]
      simp [ctor_default, setHandle, hdg, opEq, hg, hn]

/-- C8 at concrete inputs, in the initial state: the handle at address 0 is default-constructed
and the handle at address 1 is constructed from a `const_pointer` to "", which binds it to an
Entry of size 0; the two compare equal. -/
theorem C8_null_reference_is_zero_length_witness :
    (0 : Nat) ≠ 1 ∧ SizesAgree State.init.pool ∧ cstr [0] = some [] ∧
    ∃ st1, ctor_cstr sumHash true (ctor_default State.init 0) 1 (some [0]) = some st1 ∧
      (st1.handles 0)._data = none ∧
      opEq st1.pool.mem (st1.handles 0) (st1.handles 1) = true :=
  ⟨by decide, fun _ _ h => by simp [State.init, BSStringPool.init] at h, by decide,
    (C8_null_reference_is_zero_length State.init.pool.mem).2.2.2.2.2 sumHash true State.init 0 1
      [0] (by decide) (fun _ _ h => by simp [State.init, BSStringPool.init] at h) (by decide)⟩

/-! ### C9: the hash functor -/

/-- C10 (the code at the failing input): the view of length 2 over the buffer "abc" with its
terminator. The constructor passes `view.data()` alone to `GetEntry`, which reads to the
terminator: the handle has length 3, not 2, its content is "abc", and it does not compare equal
to the view; over the buffer "ab" with no terminator the read leaves the buffer. -/
theorem C10_view_constructor_reads_to_the_terminator :
    ∃ s1 : State,
      ctor_view sumHash true State.init 0 { data := some [97, 98, 99, 0], length := 2 }
        = some s1 ∧
      s1.log = [PoolOp.getEntry (some [97, 98, 99, 0]) true] ∧
      length s1.pool.mem (s1.handles 0) = 3 ∧
      data s1.pool.mem (s1.handles 0) = some [97, 98, 99, 0] ∧
      opEqView true s1.pool.mem (s1.handles 0) { data := some [97, 98, 99, 0], length := 2 }
        = some false ∧
      ctor_view sumHash true State.init 0 { data := some [97, 98], length := 2 } = none := by
  refine ⟨_, rfl, ?_, ?_, ?_, ?_, ?_⟩
  · decide
  · decide
  · decide
  · decide
  · rfl

/-! ### C18: the derived comparison operators -/

/-- C18: `h != g` is the negation of `h == g`; `h != v` the negation of `h == v`; `v == h` is
`h == v` and `v != h` its negation; `h == p` is `h ==` the view of the C string at `p`, a null
`p` giving the view of the static `EMPTY` buffer, of length 0; `p == h` is `h == p`, and
`h != p` and `p != h` are both its negation. Against a null pointer the result is defined, and
it is true exactly for the empty handles (for a handle of which `length() = 0` implies
`empty()`). -/
theorem C18_derived_comparisons (cs : Bool) (mem : Mem) (h g : BSFixedString) (v : StringView)
    (p : ConstPointer) :
    opNe mem h g = !(opEq mem h g) ∧
    opNeView cs mem h v = (opEqView cs mem h v).map (fun b => !b) ∧
    opEqViewL cs mem v h = opEqView cs mem h v ∧
    opNeViewL cs mem v h = (opEqView cs mem h v).map (fun b => !b) ∧
    (∀ buf text, p = some buf → cstr buf = some text →
      opEqPtr cs mem h p = opEqView cs mem h { data := some buf, length := text.length }) ∧
    opEqPtr cs mem h none = opEqView cs mem h { data := some EMPTY, length := 0 } ∧
    opEqPtrL cs mem p h = opEqPtr cs mem h p ∧
    opNePtr cs mem h p = (opEqPtr cs mem h p).map (fun b => !b) ∧
    opNePtrL cs mem p h = (opEqPtr cs mem h p).map (fun b => !b) ∧
    opNePtrL cs mem p h = opNePtr cs mem h p ∧
    opEqPtr cs mem h none = some (empty mem h || decide (length mem h = 0)) ∧
    ((length mem h = 0 → empty mem h = true) →
      (opEqPtr cs mem h none = some true ↔ empty mem h = true)) := by
  have hnull : opEqPtr cs mem h none = opEqView cs mem h { data := some EMPTY, length := 0 } := by
    simp [opEqPtr, viewOfCStr, cstr, EMPTY]
  have hval : opEqPtr cs mem h none = some (empty mem h || decide (length mem h = 0)) := by
    rw [hnull]
    by_cases he : empty mem h = true
    · simp [opEqView, StringView.empty, he]
    · have he2 : empty mem h = false := by simpa using he
      by_cases hl : length mem h = 0
      · cases cs <;> simp [opEqView, StringView.empty, he2, hl, strncmp, std_strncmp, strnicmp]
      · simp [opEqView, StringView.empty, he2, hl]
  refine ⟨rfl, rfl, rfl, rfl, ?_, hnull, rfl, rfl, rfl, rfl, hval, ?_⟩
  · intro buf text hp hc
    subst hp
    simp [opEqPtr, viewOfCStr, hc]
  · intro hle
    rw [hval]
    by_cases he : empty mem h = true
    · simp [he]
    · have he2 : empty mem h = false := by simpa using he
      have hl : length mem h ≠ 0 := fun h0 => he (hle h0)
      simp [he2, hl]

/-- C18 at concrete inputs: the handle bound to the Entry of "a" against the C string "a",
and against the null pointer. -/
theorem C18_derived_comparisons_witness :
    ∃ s1 : State,
      ctor_cstr sumHash true State.init 0 (some [97, 0]) = some s1 ∧
      cstr [97, 0] = some [97] ∧
      opEqPtr true s1.pool.mem (s1.handles 0) (some [97, 0])
        = opEqView true s1.pool.mem (s1.handles 0) { data := some [97, 0], length := 1 } ∧
      opEqPtr true s1.pool.mem (s1.handles 0) (some [97, 0]) = some true ∧
      opNePtrL true s1.pool.mem (some [97, 0]) (s1.handles 0) = some false ∧
      (opEqPtr true s1.pool.mem (s1.handles 0) none = some true
        ↔ empty s1.pool.mem (s1.handles 0) = true) ∧
      opEqPtr true s1.pool.mem (s1.handles 0) none = some false :=
  ⟨_, rfl, by decide,
    (C18_derived_comparisons true _ _ { _data := none } { data := none, length := 0 }
      (some [97, 0])).2.2.2.2.1 [97, 0] [97] rfl (by decide),
    by decide, by decide,
    (C18_derived_comparisons true _ _ { _data := none } { data := none, length := 0 }
      (some [97, 0])).2.2.2.2.2.2.2.2.2.2.2 (by decide),
    by decide⟩

/-! ### C15: the indices `front()` and `back()` read -/

/-- C15 (counterexample): for the handle with the null reference, `size()` is 0 and the index
`back()` reads, `size() - 1` in the 32-bit unsigned `size_type`, is `4294967295`, which is not
at most `size()`; the read is outside the one-unit static buffer `EMPTY`. -/
theorem C15_counterexample_back_of_empty_handle :
    size State.init.pool.mem { _data := none } = 0 ∧
    backIndex State.init.pool.mem { _data := none } = 4294967295 ∧
    ¬ (backIndex State.init.pool.mem { _data := none }
        ≤ size State.init.pool.mem { _data := none }) ∧
    data State.init.pool.mem { _data := none } = some [0] ∧
    back State.init.pool.mem { _data := none } = none := by
  have hb : backIndex State.init.pool.mem { _data := none } = 4294967295 := by
    norm_num [backIndex, size]
  refine ⟨rfl, hb, ?_, rfl, ?_⟩
  · rw [hb]
    norm_num [size]
  · simp [back, hb, data, EMPTY]

/-- C15 (amended): for every handle the index `front()` reads is 0, at most `size()`, and for
the null handle it reads the terminator; for every handle that is not empty (`size()` a
`std::uint32_t` other than 0) the index `back()` reads is `size() - 1`, at most `size()`; for a
handle with `size() = 0` that index is `2^32 - 1`. -/
theorem C15_front_and_back_indices (mem : Mem) (h : BSFixedString)
    (hrange : size mem h < 2 ^ 32) :
    frontIndex ≤ size mem h ∧
    front mem { _data := none } = some 0 ∧
    (0 < size mem h → backIndex mem h = size mem h - 1 ∧ backIndex mem h ≤ size mem h) ∧
    (size mem h = 0 → backIndex mem h = 2 ^ 32 - 1) := by
  refine ⟨Nat.zero_le _, by simp [front, data, EMPTY, frontIndex], ?_, ?_⟩
  · intro hpos
    have hb : backIndex mem h = size mem h - 1 := by
      unfold backIndex
      omega
    exact ⟨hb, by omega⟩
  · intro h0
    unfold backIndex
    rw [h0]
    norm_num

/-- C15 (amended) at a concrete input: the handle bound to the Entry of "ab", of size 2. -/
theorem C15_front_and_back_indices_witness :
    ∃ s1 : State,
      ctor_cstr sumHash true State.init 0 (some [97, 98, 0]) = some s1 ∧
      size s1.pool.mem (s1.handles 0) < 2 ^ 32 ∧
      0 < size s1.pool.mem (s1.handles 0) ∧
      backIndex s1.pool.mem (s1.handles 0) = size s1.pool.mem (s1.handles 0) - 1 ∧
      back s1.pool.mem (s1.handles 0) = some 98 ∧
      front s1.pool.mem (s1.handles 0) = some 97 :=
  ⟨_, rfl, by decide, by decide,
    ((C15_front_and_back_indices _ _ (by decide)).2.2.1 (by decide)).1,
    by decide, by decide⟩

/-! ### C16: handle equality is an equivalence relation -/

/-- The characterisation of `operator==` on two handles. -/
theorem opEq_eq_true_iff (mem : Mem) (a b : BSFixedString) :
    opEq mem a b = true ↔
      (leaf mem a = leaf mem b ∨ (empty mem a = true ∧ empty mem b = true)) := by
  unfold opEq
  by_cases h : leaf mem a = leaf mem b
  · simp [h]
  · simp [h]

/-- When the size of an Entry is determined by its leaf, and an Entry with a null leaf has size
0 as the null handle does, two handles with the same leaf have the same `size()`. -/
theorem size_eq_of_leaf_eq (mem : Mem)
    (hprov : ∀ p q : Ptr, (mem p).leaf = (mem q).leaf → (mem p).size = (mem q).size)
    (hnull : ∀ p : Ptr, (mem p).leaf = none → (mem p).size = 0)
    (x y : BSFixedString) (hxy : leaf mem x = leaf mem y) : size mem x = size mem y := by
  obtain ⟨x⟩ := x
  obtain ⟨y⟩ := y
  cases x with
  | none =>
    cases y with
    | none => rfl
    | some q =>
      have hq : (mem q).leaf = none := by simpa [leaf] using hxy.symm
      simp [size, hnull q hq]
  | some p =>
    cases y with
    | none =>
      have hp : (mem p).leaf = none := by simpa [leaf] using hxy
      simp [size, hnull p hp]
    | some q =>
      have hpq : (mem p).leaf = (mem q).leaf := by simpa [leaf] using hxy
      simpa [size] using hprov p q hpq

/-- C16: when the size of an Entry is determined by its leaf (two Entries with the same leaf
have the same size; an Entry whose leaf is null has size 0, as the null handle has), `operator==`
on handles is reflexive, symmetric and transitive, the mixed cases included where one step holds
by leaf identity and the other because both handles are empty. -/
theorem C16_opEq_is_an_equivalence (mem : Mem)
    (hprov : ∀ p q : Ptr, (mem p).leaf = (mem q).leaf → (mem p).size = (mem q).size)
    (hnull : ∀ p : Ptr, (mem p).leaf = none → (mem p).size = 0)
    (a b c : BSFixedString) :
    opEq mem a a = true ∧
    (opEq mem a b = true → opEq mem b a = true) ∧
    (opEq mem a b = true → opEq mem b c = true → opEq mem a c = true) := by
  refine ⟨?_, ?_, ?_⟩
  · simp [opEq]
  · intro hab
    rw [opEq_eq_true_iff] at hab ⊢
    rcases hab with hl | ⟨ha, hb⟩
    · exact Or.inl hl.symm
    · exact Or.inr ⟨hb, ha⟩
  · intro hab hbc
    rw [opEq_eq_true_iff] at hab hbc ⊢
    rcases hab with hl1 | ⟨ha, hb⟩
    · rcases hbc with hl2 | ⟨hb, hc⟩
      · exact Or.inl (hl1.trans hl2)
      · have hs := size_eq_of_leaf_eq mem hprov hnull a b hl1
        refine Or.inr ⟨?_, hc⟩
        simp only [empty] at hb ⊢
        rw [hs]
        exact hb
    · rcases hbc with hl2 | ⟨_, hc⟩
      · have hs := size_eq_of_leaf_eq mem hprov hnull b c hl2
        refine Or.inr ⟨ha, ?_⟩
        simp only [empty] at hb ⊢
        rw [← hs]
        exact hb
      · exact Or.inr ⟨ha, hc⟩

/-- C16 at a concrete input: over the sample storage, the handle bound to the zero-length Entry
equals the null handle (both empty), the null handle equals itself (same leaf), and the
handle bound to the Entry of "a" equals neither. -/
theorem C16_opEq_is_an_equivalence_witness :
    (∀ p q : Ptr, (sampleMem p).leaf = (sampleMem q).leaf →
      (sampleMem p).size = (sampleMem q).size) ∧
    (∀ p : Ptr, (sampleMem p).leaf = none → (sampleMem p).size = 0) ∧
    opEq sampleMem { _data := some 0 } { _data := none } = true ∧
    opEq sampleMem { _data := none } { _data := some 7 } = true ∧
    opEq sampleMem { _data := some 0 } { _data := some 7 } = true ∧
    opEq sampleMem { _data := some 1 } { _data := some 0 } = false :=
  have hprov : ∀ p q : Ptr, (sampleMem p).leaf = (sampleMem q).leaf →
      (sampleMem p).size = (sampleMem q).size := by
    intro p q h
    unfold sampleMem at h ⊢
    split_ifs at h ⊢ <;> simp_all
  have hnull : ∀ p : Ptr, (sampleMem p).leaf = none → (sampleMem p).size = 0 := by
    intro p h
    unfold sampleMem at h ⊢
    split_ifs at h ⊢
    all_goals simp_all
  ⟨hprov, hnull, by decide, by decide,
    (C16_opEq_is_an_equivalence sampleMem hprov hnull { _data := some 0 } { _data := none }
      { _data := some 7 }).2.2 (by decide) (by decide),
    by decide⟩

/-! ### C12: assignment from an empty text -/

/-- C12 (counterexample): the handle at address 0 is bound to the Entry of "a" and is assigned
a non-null pointer to the zero-length string "". The assignment releases the old Entry and
then calls `GetEntry`: a get-or-create is performed and the handle is bound to the Entry it
returns (address 1), not left with the null reference. -/
theorem C12_counterexample_empty_cstring_assignment :
    ∃ s1 s2 : State,
      ctor_cstr sumHash true State.init 0 (some [97, 0]) = some s1 ∧
      (s1.handles 0)._data = some 0 ∧
      cstr [0] = some [] ∧
      assign_cstr sumHash true s1 0 (some [0]) = some s2 ∧
      s2.log = s1.log ++ [PoolOp.release (some 0), PoolOp.getEntry (some [0]) true] ∧
      (s2.handles 0)._data = some 1 ∧
      (s2.handles 0)._data ≠ none := by
  refine ⟨_, _, rfl, ?_, ?_, rfl, ?_, ?_, ?_⟩ <;> decide

/-- The state `try_release` leaves: the pool after `release` on the handle's reference, the
handle null, one call logged. -/
theorem try_release_spec (st : State) (this : Nat) :
    (try_release st this).pool
      = (BSStringPool.Entry.release st.pool (st.handles this)._data).1 ∧
    ((try_release st this).handles this)._data = none ∧
    (∀ i, i ≠ this → (try_release st this).handles i = st.handles i) ∧
    (try_release st this).log = st.log ++ [PoolOp.release (st.handles this)._data] := by
  refine ⟨rfl, ?_, ?_, rfl⟩
  · simp [try_release, setHandle, release_snd]
  · intro i hi
    simp [try_release, setHandle, hi]

/-- C12 (amended): assigning a null `const_pointer`, or a view of length zero, to a handle
returns and leaves it with the null reference; the only pool call is the one `release` on the
reference it held (which lowers the count of the Entry it held by one), and no `GetEntry` is
made. Assigning a non-null pointer to the zero-length C string returns too, after the same
`release` and one `GetEntry` call, with the handle holding the Entry that call returns. -/
theorem C12_assignment_from_empty_text (hash : List CharT → Nat) (cs : Bool) (st : State)
    (this : Nat) :
    (∃ st1, assign_cstr hash cs st this none = some st1 ∧
      (st1.handles this)._data = none ∧
      st1.log = st.log ++ [PoolOp.release (st.handles this)._data] ∧
      (∀ E, (st.handles this)._data = some E → refs st1 E = refs st E - 1)) ∧
    (∀ v : StringView, v.length = 0 →
      ∃ st1, assign_view hash cs st this v = some st1 ∧
        (st1.handles this)._data = none ∧
        st1.log = st.log ++ [PoolOp.release (st.handles this)._data] ∧
        (∀ E, (st.handles this)._data = some E → refs st1 E = refs st E - 1)) ∧
    (∀ buf : List CharT, cstr buf = some [] →
      ∃ st1, assign_cstr hash cs st this (some buf) = some st1 ∧
        st1.log = st.log ++ [PoolOp.release (st.handles this)._data,
          PoolOp.getEntry (some buf) cs] ∧
        (st1.handles this)._data
          = some (BSStringPool.get_or_create hash (try_release st this).pool [] cs).2) := by
  have hrel : ∀ E, (st.handles this)._data = some E →
      refs (try_release st this) E = refs st E - 1 := by
    intro E hE
    simp only [refs, (try_release_spec st this).1, hE]
    exact release_refs_same st.pool E
  refine ⟨?_, ?_, ?_⟩
  · exact ⟨try_release st this, rfl, (try_release_spec st this).2.1, rfl, hrel⟩
  · intro v hv
    refine ⟨try_release st this, ?_, (try_release_spec st this).2.1, rfl, hrel⟩
    simp [assign_view, StringView.empty, hv]
  · intro buf hbuf
    refine ⟨_, callGetEntry_of_cstr hash cs (try_release st this) this buf [] hbuf, ?_, ?_⟩
    · simp [try_release]
    · simp [setHandle]

/-- C12 (amended) at concrete inputs: the handle bound to the Entry of "a" (count 1) is
assigned the null pointer, and is assigned the empty view. -/
theorem C12_assignment_from_empty_text_witness :
    ∃ s1 : State,
      ctor_cstr sumHash true State.init 0 (some [97, 0]) = some s1 ∧
      (s1.handles 0)._data = some 0 ∧ refs s1 0 = 1 ∧
      (∃ st1, assign_cstr sumHash true s1 0 none = some st1 ∧
        (st1.handles 0)._data = none ∧
        st1.log = s1.log ++ [PoolOp.release (s1.handles 0)._data] ∧
        (∀ E, (s1.handles 0)._data = some E → refs st1 E = refs s1 E - 1)) ∧
      (∃ st1, assign_view sumHash true s1 0 { data := none, length := 0 } = some st1 ∧
        (st1.handles 0)._data = none ∧
        st1.log = s1.log ++ [PoolOp.release (s1.handles 0)._data] ∧
        (∀ E, (s1.handles 0)._data = some E → refs st1 E = refs s1 E - 1)) :=
  ⟨_, rfl, by decide, by decide,
    (C12_assignment_from_empty_text sumHash true _ 0).1,
    (C12_assignment_from_empty_text sumHash true _ 0).2.1 { data := none, length := 0 } rfl⟩

/-! ### The pool invariant is kept by the pool operations -/

/-- Normalizing keeps the length of a text. -/
theorem normalize_length (cs : Bool) (t : List CharT) :
    (BSStringPool.normalize cs t).length = t.length := by
  unfold BSStringPool.normalize
  split <;> simp

/-- The text read by `cstr` holds no terminator. -/
theorem cstr_noNul (buf t : List CharT) (h : cstr buf = some t) : (0 : Nat) ∉ t := by
  unfold cstr at h
  split at h
  · simp only [Option.some.injEq] at h
    subst h
    intro h0
    have := List.mem_takeWhile_imp h0
    simp at this
  · simp at h

/-- The content pointer of an `Interned` Entry is to its text followed by the terminator. -/
theorem Interned_text (mem : Mem) (p : Ptr) (h : Interned mem p) :
    (mem p).data = some (entryText (mem p) ++ [0]) ∧
    (entryText (mem p)).length = (mem p).length := by
  obtain ⟨_, _, t, ht, hl⟩ := h
  have ht2 : entryText (mem p) = t := by
    simp [entryText, ht, ← hl]
  rw [ht2]
  exact ⟨ht, hl⟩

/-- A candidate that matches a text stores that text, up to the case rule. -/
theorem matchesText_imp (cs : Bool) (mem : Mem) (p : Ptr) (text : List CharT)
    (h : BSStringPool.matchesText cs mem p text = true) :
    BSStringPool.normalize cs (entryText (mem p)) = BSStringPool.normalize cs text ∧
    (mem p).length = text.length := by
  unfold BSStringPool.matchesText at h
  cases hd : (mem p).data with
  | none => simp [hd] at h
  | some b =>
    simp only [hd, Bool.and_eq_true, beq_iff_eq] at h
    exact ⟨by simpa [entryText, hd] using h.2, h.1⟩

/-- An `Interned` candidate that stores a text, up to the case rule, matches it. -/
theorem matchesText_of (cs : Bool) (mem : Mem) (p : Ptr) (text : List CharT)
    (hp : Interned mem p)
    (h : BSStringPool.normalize cs (entryText (mem p)) = BSStringPool.normalize cs text) :
    BSStringPool.matchesText cs mem p text = true := by
  obtain ⟨hd, hl⟩ := Interned_text mem p hp
  have hlen : (mem p).length = text.length := by
    have := congrArg List.length h
    rw [normalize_length, normalize_length] at this
    omega
  unfold BSStringPool.matchesText
  simp only [hd, Bool.and_eq_true, beq_iff_eq]
  refine ⟨hlen, ?_⟩
  have ht : (entryText (mem p) ++ [0]).take (mem p).length = entryText (mem p) := by
    rw [← hl]
    simp
  rw [ht]
  exact h

/-- The pool invariant passes to a pool whose Entries differ in their counts only, whose
buckets hold no further Entry, and whose next address is no lower. -/
theorem PoolInv_mono (hash : List CharT → Nat) (cs : Bool) (P Q : BSStringPool)
    (hmem : ∀ q, SameEntry (Q.mem q) (P.mem q))
    (hb : ∀ k p, p ∈ Q.buckets k → p ∈ P.buckets k) (hn : P.next ≤ Q.next)
    (h : PoolInv hash cs P) : PoolInv hash cs Q := by
  have hleaf : ∀ q, (Q.mem q).leaf = (P.mem q).leaf := fun q => (hmem q).1
  have hsize : ∀ q, (Q.mem q).size = (P.mem q).size := fun q => (hmem q).2.1
  have hlen : ∀ q, (Q.mem q).length = (P.mem q).length := fun q => (hmem q).2.2.1
  have hdata : ∀ q, (Q.mem q).data = (P.mem q).data := fun q => (hmem q).2.2.2
  have htext : ∀ q, entryText (Q.mem q) = entryText (P.mem q) := fun q => by
    simp [entryText, hlen q, hdata q]
  refine ⟨?_, ?_, ?_, ?_, ?_⟩
  · intro k p hp
    have := h.interned k p (hb k p hp)
    simpa [Interned, hleaf p, hsize p, hlen p, hdata p] using this
  · intro k p hp
    rw [htext]
    exact h.noNul k p (hb k p hp)
  · intro k p hp
    rw [htext]
    exact h.placed k p (hb k p hp)
  · intro k p q hp hq
    rw [htext, htext]
    exact h.unique k p q (hb k p hp) (hb k q hq)
  · intro k p hp
    exact Nat.lt_of_lt_of_le (h.fresh k p (hb k p hp)) hn

/-- The call `acquire` changes the count of its Entry only. -/
theorem acquire_same_entries (P : BSStringPool) (p q : Ptr) :
    SameEntry ((BSStringPool.Entry.acquire P p).mem q) (P.mem q) := by
  by_cases h : q = p
  · subst h
    simp [SameEntry, BSStringPool.Entry.acquire, setEntry]
  · simp [SameEntry, BSStringPool.Entry.acquire, setEntry, h]

/-- The call `release` changes the count of its Entry only. -/
theorem release_same_entries (P : BSStringPool) (e : Option Ptr) (q : Ptr) :
    SameEntry ((BSStringPool.Entry.release P e).1.mem q) (P.mem q) := by
  cases e with
  | none => exact ⟨rfl, rfl, rfl, rfl⟩
  | some p =>
    unfold BSStringPool.Entry.release
    by_cases h0 : (P.mem p).refs - 1 = 0 <;> by_cases h : q = p
    · subst h
      simp [SameEntry, h0, setEntry]
    · simp [SameEntry, h0, setEntry, h]
    · subst h
      simp [SameEntry, h0, setEntry]
    · simp [SameEntry, h0, setEntry, h]

/-- The buckets after `release`: the Entry is taken out when its count reaches zero. -/
theorem release_buckets (P : BSStringPool) (p : Ptr) (k : Nat) :
    (BSStringPool.Entry.release P (some p)).1.buckets k
      = if (P.mem p).refs - 1 = 0 then (P.buckets k).filter (fun q => q != p)
        else P.buckets k := by
  unfold BSStringPool.Entry.release
  by_cases h0 : (P.mem p).refs - 1 = 0 <;> simp [h0]

/-- No Entry enters a bucket by `release`. -/
theorem release_buckets_sub (P : BSStringPool) (e : Option Ptr) (k : Nat) (q : Ptr)
    (h : q ∈ (BSStringPool.Entry.release P e).1.buckets k) : q ∈ P.buckets k := by
  cases e with
  | none => exact h
  | some p =>
    rw [release_buckets] at h
    split at h
    · exact (List.mem_filter.mp h).1
    · exact h

/-- The next address is unchanged by `release`. -/
theorem release_next (P : BSStringPool) (e : Option Ptr) :
    (BSStringPool.Entry.release P e).1.next = P.next := by
  cases e with
  | none => rfl
  | some p =>
    unfold BSStringPool.Entry.release
    by_cases h0 : (P.mem p).refs - 1 = 0 <;> simp [h0]

/-- The pool invariant is kept by `acquire`. -/
theorem acquire_PoolInv (hash : List CharT → Nat) (cs : Bool) (P : BSStringPool) (p : Ptr)
    (h : PoolInv hash cs P) : PoolInv hash cs (BSStringPool.Entry.acquire P p) :=
  PoolInv_mono hash cs P _ (acquire_same_entries P p) (fun _ _ hq => hq) (Nat.le_refl _) h

/-- The pool invariant is kept by `release`. -/
theorem release_PoolInv (hash : List CharT → Nat) (cs : Bool) (P : BSStringPool)
    (e : Option Ptr) (h : PoolInv hash cs P) :
    PoolInv hash cs (BSStringPool.Entry.release P e).1 :=
  PoolInv_mono hash cs P _ (release_same_entries P e) (release_buckets_sub P e)
    (Nat.le_of_eq (release_next P e).symm) h

/-- The result of `get_or_create` when a candidate of the bucket matches. -/
theorem get_or_create_found (hash : List CharT → Nat) (P : BSStringPool) (text : List CharT)
    (cs : Bool) (p : Ptr)
    (hf : (P.buckets (hash (BSStringPool.normalize cs text))).find?
      (fun q => BSStringPool.matchesText cs P.mem q text) = some p) :
    BSStringPool.get_or_create hash P text cs = (BSStringPool.Entry.acquire P p, p) := by
  simp only [BSStringPool.get_or_create, hf]

/-- The result of `get_or_create` when no candidate of the bucket matches. -/
theorem get_or_create_new (hash : List CharT → Nat) (P : BSStringPool) (text : List CharT)
    (cs : Bool)
    (hf : (P.buckets (hash (BSStringPool.normalize cs text))).find?
      (fun q => BSStringPool.matchesText cs P.mem q text) = none) :
    BSStringPool.get_or_create hash P text cs
      = ({ mem := setEntry P.mem P.next
                    { leaf := some P.next, size := text.length, length := text.length,
                      data := some (text ++ [0]), refs := 1 },
           buckets := fun j =>
             if j = hash (BSStringPool.normalize cs text) then P.next :: P.buckets j
             else P.buckets j,
           next := P.next + 1 }, P.next) := by
  simp only [BSStringPool.get_or_create, hf]

/-- The pool invariant is kept by `get_or_create` on a text without terminator. -/
theorem get_or_create_PoolInv (hash : List CharT → Nat) (cs : Bool) (P : BSStringPool)
    (text : List CharT) (h : PoolInv hash cs P) (ht : (0 : Nat) ∉ text) :
    PoolInv hash cs (BSStringPool.get_or_create hash P text cs).1 := by
  cases hf : (P.buckets (hash (BSStringPool.normalize cs text))).find?
      (fun q => BSStringPool.matchesText cs P.mem q text) with
  | some p =>
    rw [get_or_create_found hash P text cs p hf]
    exact acquire_PoolInv hash cs P p h
  | none =>
    rw [get_or_create_new hash P text cs hf]
    have hnew : entryText
        { leaf := some P.next, size := text.length, length := text.length,
          data := some (text ++ [0]), refs := 1 } = text := by
      simp [entryText]
    have hold : ∀ k p, p ∈ P.buckets k → p ≠ P.next := fun k p hp =>
      Nat.ne_of_lt (h.fresh k p hp)
    have hcase : ∀ (j : Nat) (p : Ptr),
        p ∈ (if j = hash (BSStringPool.normalize cs text) then P.next :: P.buckets j
          else P.buckets j) →
        (p = P.next ∧ j = hash (BSStringPool.normalize cs text)) ∨ p ∈ P.buckets j := by
      intro j p hp
      by_cases hj : j = hash (BSStringPool.normalize cs text)
      · rw [if_pos hj] at hp
        rcases List.mem_cons.mp hp with h1 | h1
        · exact Or.inl ⟨h1, hj⟩
        · exact Or.inr h1
      · rw [if_neg hj] at hp
        exact Or.inr hp
    refine ⟨?_, ?_, ?_, ?_, ?_⟩
    · intro k p hp
      rcases hcase k p hp with ⟨h1, _⟩ | h1
      · subst h1
        exact ⟨by simp [setEntry], by simp [setEntry], text, by simp [setEntry],
          by simp [setEntry]⟩
      · have := h.interned k p h1
        simpa [Interned, setEntry, hold k p h1] using this
    · intro k p hp
      rcases hcase k p hp with ⟨h1, _⟩ | h1
      · subst h1
        simp only [setEntry, if_true, hnew]
        exact ht
      · simp only [setEntry, hold k p h1, if_false]
        exact h.noNul k p h1
    · intro k p hp
      rcases hcase k p hp with ⟨h1, h2⟩ | h1
      · subst h1
        simp only [setEntry, if_true, hnew]
        exact h2
      · simp only [setEntry, hold k p h1, if_false]
        exact h.placed k p h1
    · intro k p q hp hq
      have hnomatch : ∀ x, x ∈ P.buckets k → k = hash (BSStringPool.normalize cs text) →
          BSStringPool.normalize cs (entryText (P.mem x)) ≠ BSStringPool.normalize cs text := by
        intro x hx hk hn
        have hm := matchesText_of cs P.mem x text (h.interned k x hx) hn
        have := List.find?_eq_none.mp hf x (hk ▸ hx)
        exact this hm
      rcases hcase k p hp with ⟨h1, h2⟩ | h1
      · rcases hcase k q hq with ⟨h3, _⟩ | h3
        · intro _
          rw [h1, h3]
        · subst h1
          simp only [setEntry, if_true, hnew, hold k q h3, if_false]
          intro hn
          exact absurd hn.symm (hnomatch q h3 h2)
      · rcases hcase k q hq with ⟨h3, h4⟩ | h3
        · subst h3
          simp only [setEntry, if_true, hnew, hold k p h1, if_false]
          intro hn
          exact absurd hn (hnomatch p h1 h4)
        · simp only [setEntry, hold k p h1, hold k q h3, if_false]
          exact h.unique k p q h1 h3
    · intro k p hp
      rcases hcase k p hp with ⟨h1, _⟩ | h1
      · subst h1
        exact Nat.lt_succ_self _
      · exact Nat.lt_succ_of_lt (h.fresh k p h1)

/-- The empty pool satisfies the pool invariant. -/
theorem init_PoolInv (hash : List CharT → Nat) (cs : Bool) :
    PoolInv hash cs BSStringPool.init :=
  ⟨fun _ _ h => by simp [BSStringPool.init] at h, fun _ _ h => by simp [BSStringPool.init] at h,
   fun _ _ h => by simp [BSStringPool.init] at h,
   fun _ _ _ h => by simp [BSStringPool.init] at h,
   fun _ _ h => by simp [BSStringPool.init] at h⟩

/-! ### Counting the handles bound to an Entry -/

/-- The number of bound handles depends on the references of the counted handles only. -/
theorem boundCount_congr (hs hs2 : Nat → BSFixedString) (live : List Nat) (p : Ptr)
    (h : ∀ i, i ∈ live → (hs2 i)._data = (hs i)._data) :
    boundCount hs2 live p = boundCount hs live p := by
  unfold boundCount
  apply List.countP_congr
  intro i hi
  simp [h i hi]

/-- Counting one more handle. -/
theorem boundCount_cons (hs : Nat → BSFixedString) (d : Nat) (live : List Nat) (p : Ptr) :
    boundCount hs (d :: live) p
      = boundCount hs live p + (if (hs d)._data = some p then 1 else 0) := by
  simp [boundCount, List.countP_cons]

/-- Writing a handle that is not counted. -/
theorem boundCount_set_notin (hs : Nat → BSFixedString) (d : Nat) (h : BSFixedString)
    (live : List Nat) (p : Ptr) (hd : d ∉ live) :
    boundCount (setHandle hs d h) live p = boundCount hs live p := by
  apply boundCount_congr
  intro i hi
  have hid : i ≠ d := fun e => hd (e ▸ hi)
  simp [setHandle, hid]

/-- Writing a counted handle: its old reference leaves the count, its new one enters. -/
theorem boundCount_set (hs : Nat → BSFixedString) (d : Nat) (h : BSFixedString)
    (live : List Nat) (p : Ptr) (hnd : live.Nodup) (hd : d ∈ live) :
    boundCount (setHandle hs d h) live p + (if (hs d)._data = some p then 1 else 0)
      = boundCount hs live p + (if h._data = some p then 1 else 0) := by
  induction live with
  | nil => simp at hd
  | cons x l ih =>
    have hx : x ∉ l := (List.nodup_cons.mp hnd).1
    have hl : l.Nodup := (List.nodup_cons.mp hnd).2
    rw [boundCount_cons, boundCount_cons]
    by_cases hxd : x = d
    · subst hxd
      rw [boundCount_set_notin hs x h l p hx, setHandle_same]
      omega
    · have hdl : d ∈ l := by
        rcases List.mem_cons.mp hd with h1 | h1
        · exact absurd h1.symm hxd
        · exact h1
      have := ih hl hdl
      rw [setHandle_other hs d x h hxd]
      omega

/-- Dropping a handle with the null reference from the counted handles. -/
theorem boundCount_erase_null (hs : Nat → BSFixedString) (d : Nat) (live : List Nat) (p : Ptr)
    (hnull : (hs d)._data = none) :
    boundCount hs (live.erase d) p = boundCount hs live p := by
  induction live with
  | nil => rfl
  | cons x l ih =>
    by_cases hxd : x = d
    · subst hxd
      rw [List.erase_cons_head, boundCount_cons]
      simp [hnull]
    · rw [List.erase_cons_tail (by simpa using hxd), boundCount_cons, boundCount_cons, ih]

/-- A counted handle bound to an Entry makes its number of bound handles positive. -/
theorem boundCount_pos (hs : Nat → BSFixedString) (live : List Nat) (i : Nat) (p : Ptr)
    (hi : i ∈ live) (hb : (hs i)._data = some p) : 1 ≤ boundCount hs live p := by
  unfold boundCount
  exact List.countP_pos_iff.mpr ⟨i, hi, by simp [hb]⟩

/-- Writing a handle twice is writing it once. -/
theorem setHandle_idem (hs : Nat → BSFixedString) (d : Nat) (a b : BSFixedString) :
    setHandle (setHandle hs d a) d b = setHandle hs d b := by
  funext i
  by_cases h : i = d <;> simp [setHandle, h]

/-! ### The handle invariant is kept by the steps of the handle operations -/

/-- A handle that comes into existence with the null reference. -/
theorem inv_new (st : State) (live : List Nat) (d : Nat) (h : HandleInv st live)
    (hd : d ∉ live) :
    HandleInv { st with handles := setHandle st.handles d { _data := none } } (d :: live) := by
  refine ⟨List.nodup_cons.mpr ⟨hd, h.nodup⟩, ?_, ?_⟩
  · intro i hi p hp
    rcases List.mem_cons.mp hi with h1 | h1
    · subst h1
      simp [setHandle] at hp
    · have hid : i ≠ d := fun e => hd (e ▸ h1)
      simp only [setHandle, hid, if_false] at hp
      exact h.bound_live i h1 p hp
  · intro p
    simp only [boundCount_cons, boundCount_set_notin st.handles d _ live p hd, setHandle_same]
    simpa using h.counted p

/-- A handle with the null reference that ceases to exist. -/
theorem inv_erase (st : State) (live : List Nat) (d : Nat) (h : HandleInv st live)
    (hnull : (st.handles d)._data = none) : HandleInv st (live.erase d) := by
  refine ⟨h.nodup.erase d, ?_, ?_⟩
  · intro i hi p hp
    exact h.bound_live i (List.mem_of_mem_erase hi) p hp
  · intro p
    rw [boundCount_erase_null st.handles d live p hnull]
    exact h.counted p

/-- The step `try_release()` of a handle that exists. -/
theorem inv_release (st : State) (live : List Nat) (d : Nat) (h : HandleInv st live)
    (hd : d ∈ live) : HandleInv (try_release st d) live := by
  have hhs : (try_release st d).handles = setHandle st.handles d { _data := none } := by
    simp [try_release, release_snd]
  have hcnt : ∀ p, boundCount (try_release st d).handles live p
      + (if (st.handles d)._data = some p then 1 else 0) = boundCount st.handles live p := by
    intro p
    rw [hhs]
    simpa using boundCount_set st.handles d { _data := none } live p h.nodup hd
  have hcounted : ∀ p, boundCount (try_release st d).handles live p
      ≤ refs (try_release st d) p := by
    intro p
    have hc := hcnt p
    have h0 := h.counted p
    cases hv : (st.handles d)._data with
    | none =>
      have hr : refs (try_release st d) p = refs st p := by
        simp [refs, try_release, hv, BSStringPool.Entry.release]
      rw [hv] at hc
      simp only [reduceCtorEq, if_false, Nat.add_zero] at hc
      omega
    | some e =>
      rw [hv] at hc
      by_cases hpe : p = e
      · subst hpe
        have hr : refs (try_release st d) p = refs st p - 1 := by
          simp only [refs, (try_release_spec st d).1, hv]
          exact release_refs_same st.pool p
        simp only [if_true] at hc
        omega
      · have hr : refs (try_release st d) p = refs st p := by
          simp only [refs, (try_release_spec st d).1, hv]
          rw [release_mem_other st.pool e p hpe]
        have hne : ¬ (some e = some p) := fun e1 => hpe (Option.some.inj e1).symm
        simp only [hne, if_false] at hc
        omega
  refine ⟨h.nodup, ?_, hcounted⟩
  intro i hi p hp
  have hid : i ≠ d := by
    intro e
    subst e
    rw [(try_release_spec st i).2.1] at hp
    simp at hp
  have hold : (st.handles i)._data = some p := by
    rw [(try_release_spec st d).2.2.1 i hid] at hp
    exact hp
  obtain ⟨k, hk⟩ := h.bound_live i hi p hold
  refine ⟨k, ?_⟩
  rw [(try_release_spec st d).1]
  cases hv : (st.handles d)._data with
  | none => simpa [BSStringPool.Entry.release] using hk
  | some e =>
    rw [release_buckets]
    split
    · rename_i h0
      refine List.mem_filter.mpr ⟨hk, ?_⟩
      have hpe : p ≠ e := by
        intro hpe
        subst hpe
        have h1 := boundCount_pos (try_release st d).handles live i p hi hp
        have h2 := hcounted p
        have hr : refs (try_release st d) p = refs st p - 1 := by
          simp only [refs, (try_release_spec st d).1, hv]
          exact release_refs_same st.pool p
        simp only [refs] at hr h2 h0
        omega
      simpa using hpe
    · exact hk

/-- Move assignment between two handles that exist. -/
theorem inv_move (st : State) (live : List Nat) (d s : Nat) (h : HandleInv st live)
    (hd : d ∈ live) (hs : s ∈ live) (hds : d ≠ s) : HandleInv (assign_move st d s) live := by
  have hsd : s ≠ d := fun e => hds e.symm
  have hhs : (assign_move st d s).handles
      = setHandle (setHandle st.handles d { _data := (st.handles s)._data }) s
          { _data := none } := by
    simp [assign_move, hds]
  have hpool : (assign_move st d s).pool = st.pool := by
    simp [assign_move, hds]
  refine ⟨h.nodup, ?_, ?_⟩
  · intro i hi p hp
    rw [hpool]
    rw [hhs] at hp
    by_cases his : i = s
    · subst his
      simp [setHandle] at hp
    · by_cases hid : i = d
      · subst hid
        simp only [setHandle, his, if_false, if_true] at hp
        exact h.bound_live s hs p hp
      · simp only [setHandle, his, hid, if_false] at hp
        exact h.bound_live i hi p hp
  · intro p
    have h1 := boundCount_set st.handles d { _data := (st.handles s)._data } live p h.nodup hd
    have h2 := boundCount_set (setHandle st.handles d { _data := (st.handles s)._data }) s
      { _data := none } live p h.nodup hs
    rw [setHandle_other st.handles d s _ hsd] at h2
    have h0 := h.counted p
    have hr : refs (assign_move st d s) p = refs st p := by simp [refs, hpool]
    rw [hhs, hr]
    simp only at h1 h2
    simp only [reduceCtorEq, if_false] at h2
    omega

/-- The steps `_data = a_rhs._data; try_acquire()` on a handle with the null reference. -/
theorem inv_copy_bind (st : State) (live : List Nat) (d s : Nat) (h : HandleInv st live)
    (hd : d ∈ live) (hs : s ∈ live) (hnull : (st.handles d)._data = none) :
    HandleInv (try_acquire
      { st with handles := setHandle st.handles d { _data := (st.handles s)._data } } d)
      live := by
  have hcnt : ∀ p, boundCount (setHandle st.handles d { _data := (st.handles s)._data }) live p
      = boundCount st.handles live p + (if (st.handles s)._data = some p then 1 else 0) := by
    intro p
    have := boundCount_set st.handles d { _data := (st.handles s)._data } live p h.nodup hd
    rw [hnull] at this
    simpa using this
  obtain ⟨v, hv⟩ : ∃ v, (st.handles s)._data = v := ⟨_, rfl⟩
  cases v with
  | none =>
    have hst : try_acquire
        { st with handles := setHandle st.handles d { _data := (st.handles s)._data } } d
        = { st with handles := setHandle st.handles d { _data := none } } := by
      simp [try_acquire, setHandle, hv]
    rw [hst]
    refine ⟨h.nodup, ?_, ?_⟩
    · intro i hi p hp
      by_cases hid : i = d
      · subst hid
        simp [setHandle] at hp
      · simp only [setHandle, hid, if_false] at hp
        exact h.bound_live i hi p hp
    · intro p
      have := hcnt p
      rw [hv] at this
      simp only [reduceCtorEq, if_false, Nat.add_zero] at this
      rw [this]
      exact h.counted p
  | some e =>
    have hst : try_acquire
        { st with handles := setHandle st.handles d { _data := (st.handles s)._data } } d
        = { pool := BSStringPool.Entry.acquire st.pool e,
            handles := setHandle st.handles d { _data := some e },
            log := st.log ++ [PoolOp.acquire e] } := by
      simp [try_acquire, setHandle, hv]
    rw [hst]
    refine ⟨h.nodup, ?_, ?_⟩
    · intro i hi p hp
      by_cases hid : i = d
      · subst hid
        simp only [setHandle, if_true, Option.some.injEq] at hp
        subst hp
        exact h.bound_live s hs e hv
      · simp only [setHandle, hid, if_false] at hp
        exact h.bound_live i hi p hp
    · intro p
      have hc := hcnt p
      rw [hv] at hc
      have h0 := h.counted p
      simp only [refs] at h0 ⊢
      rw [hc]
      by_cases hpe : p = e
      · subst hpe
        rw [acquire_refs_same]
        simp only [if_true]
        omega
      · rw [acquire_mem_other st.pool e p hpe]
        have hne : ¬ (some e = some p) := fun e1 => hpe (Option.some.inj e1).symm
        simp only [hne, if_false]
        omega

/-- The step `GetEntry(_data, a_string, CS)` on a handle with the null reference. -/
theorem inv_getEntry (hash : List CharT → Nat) (cs : Bool) (st st1 : State) (live : List Nat)
    (d : Nat) (a : ConstPointer) (h : HandleInv st live) (hP : PoolInv hash cs st.pool)
    (hd : d ∈ live) (hnull : (st.handles d)._data = none)
    (hcall : callGetEntry hash cs st d a = some st1) :
    HandleInv st1 live ∧ PoolInv hash cs st1.pool := by
  cases a with
  | none => simp [callGetEntry, GetEntry] at hcall
  | some buf =>
    cases hc : cstr buf with
    | none => simp [callGetEntry, GetEntry, hc] at hcall
    | some text =>
      rw [callGetEntry_of_cstr hash cs st d buf text hc] at hcall
      simp only [Option.some.injEq] at hcall
      subst hcall
      refine ⟨?_, get_or_create_PoolInv hash cs st.pool text hP (cstr_noNul buf text hc)⟩
      have hcnt : ∀ (r p : Ptr), boundCount (setHandle st.handles d { _data := some r }) live p
          = boundCount st.handles live p + (if r = p then 1 else 0) := by
        intro r p
        have := boundCount_set st.handles d { _data := some r } live p h.nodup hd
        rw [hnull] at this
        simpa using this
      cases hf : (st.pool.buckets (hash (BSStringPool.normalize cs text))).find?
          (fun q => BSStringPool.matchesText cs st.pool.mem q text) with
      | some r =>
        rw [get_or_create_found hash st.pool text cs r hf]
        have hr := List.mem_of_find?_eq_some hf
        refine ⟨h.nodup, ?_, ?_⟩
        · intro i hi p hp
          by_cases hid : i = d
          · subst hid
            simp only [setHandle, if_true, Option.some.injEq] at hp
            subst hp
            exact ⟨_, hr⟩
          · simp only [setHandle, hid, if_false] at hp
            exact h.bound_live i hi p hp
        · intro p
          have h0 := h.counted p
          simp only [refs] at h0 ⊢
          rw [hcnt r p]
          by_cases hpe : p = r
          · subst hpe
            rw [acquire_refs_same]
            simp only [if_true]
            omega
          · rw [acquire_mem_other st.pool r p hpe]
            have hne : ¬ (r = p) := fun e1 => hpe e1.symm
            simp only [hne, if_false]
            omega
      | none =>
        rw [get_or_create_new hash st.pool text cs hf]
        have hnone : boundCount st.handles live st.pool.next = 0 := by
          by_contra hne
          have hpos : 0 < boundCount st.handles live st.pool.next := Nat.pos_of_ne_zero hne
          obtain ⟨i, hi, hb⟩ := List.countP_pos_iff.mp hpos
          have hb2 : (st.handles i)._data = some st.pool.next := by simpa using hb
          obtain ⟨k, hk⟩ := h.bound_live i hi _ hb2
          exact Nat.lt_irrefl _ (hP.fresh k _ hk)
        refine ⟨h.nodup, ?_, ?_⟩
        · intro i hi p hp
          by_cases hid : i = d
          · subst hid
            simp only [setHandle, if_true, Option.some.injEq] at hp
            subst hp
            exact ⟨hash (BSStringPool.normalize cs text), by simp⟩
          · simp only [setHandle, hid, if_false] at hp
            obtain ⟨k, hk⟩ := h.bound_live i hi p hp
            refine ⟨k, ?_⟩
            by_cases hkk : k = hash (BSStringPool.normalize cs text)
            · simp only [hkk, if_true]
              exact List.mem_cons_of_mem _ (hkk ▸ hk)
            · simp only [hkk, if_false]
              exact hk
        · intro p
          have h0 := h.counted p
          simp only [refs] at h0 ⊢
          rw [hcnt st.pool.next p]
          by_cases hpe : p = st.pool.next
          · subst hpe
            simp only [setEntry, if_true]
            omega
          · have hne : ¬ (st.pool.next = p) := fun e1 => hpe e1.symm
            simp only [setEntry, hpe, hne, if_false]
            omega

/-- The pool invariant is kept by `try_release()`. -/
theorem try_release_PoolInv (hash : List CharT → Nat) (cs : Bool) (st : State) (d : Nat)
    (h : PoolInv hash cs st.pool) : PoolInv hash cs (try_release st d).pool :=
  release_PoolInv hash cs st.pool _ h

/-- The pool invariant is kept by `try_acquire()`. -/
theorem try_acquire_PoolInv (hash : List CharT → Nat) (cs : Bool) (st : State) (d : Nat)
    (h : PoolInv hash cs st.pool) : PoolInv hash cs (try_acquire st d).pool := by
  unfold try_acquire
  split
  · exact acquire_PoolInv hash cs st.pool _ h
  · exact h

/-- Every operation of a client program keeps the handle invariant and the pool invariant. -/
theorem step_inv (hash : List CharT → Nat) (cs : Bool) (st st1 : State) (live live1 : List Nat)
    (op : Op) (h : HandleInv st live) (hP : PoolInv hash cs st.pool)
    (hstep : step hash cs st live op = some (st1, live1)) :
    HandleInv st1 live1 ∧ PoolInv hash cs st1.pool := by
  cases op with
  | ctor_default d =>
    by_cases hd : d ∈ live
    · simp [step, hd] at hstep
    · simp only [step, hd, if_false, Option.some.injEq, Prod.mk.injEq] at hstep
      obtain ⟨rfl, rfl⟩ := hstep
      exact ⟨inv_new st live d h hd, hP⟩
  | ctor_copy d s =>
    by_cases hc : d ∉ live ∧ s ∈ live
    · simp only [step, hc, and_self, if_true, Option.some.injEq, Prod.mk.injEq] at hstep
      obtain ⟨rfl, rfl⟩ := hstep
      have hsd : s ≠ d := fun e => hc.1 (e ▸ hc.2)
      have h0 := inv_new st live d h hc.1
      have h1 := inv_copy_bind _ (d :: live) d s h0 (List.mem_cons_self _ _)
        (List.mem_cons_of_mem _ hc.2) (by simp [setHandle])
      have e : ctor_copy st d s = try_acquire
          { pool := st.pool,
            handles := setHandle (setHandle st.handles d { _data := none }) d
              { _data := (setHandle st.handles d { _data := none } s)._data },
            log := st.log } d := by
        simp only [ctor_copy, setHandle_idem, setHandle_other st.handles d s _ hsd]
      rw [e]
      exact ⟨h1, try_acquire_PoolInv hash cs _ d hP⟩
    · simp [step, hc] at hstep
  | ctor_move d s =>
    by_cases hc : d ∉ live ∧ s ∈ live
    · simp only [step, hc, and_self, if_true, Option.some.injEq, Prod.mk.injEq] at hstep
      obtain ⟨rfl, rfl⟩ := hstep
      have hsd : s ≠ d := fun e => hc.1 (e ▸ hc.2)
      have hds : d ≠ s := fun e => hsd e.symm
      have h0 := inv_new st live d h hc.1
      have h1 := inv_move _ (d :: live) d s h0 (List.mem_cons_self _ _)
        (List.mem_cons_of_mem _ hc.2) hds
      have e : ctor_move st d s = assign_move
          { pool := st.pool, handles := setHandle st.handles d { _data := none },
            log := st.log } d s := by
        simp only [ctor_move, assign_move, ne_eq, hds, not_false_eq_true, if_true,
          setHandle_idem, setHandle_other st.handles d s _ hsd]
      rw [e]
      exact ⟨h1, by simpa [assign_move, hds] using hP⟩
    · simp [step, hc] at hstep
  | ctor_cstr d a =>
    by_cases hd : d ∈ live
    · simp [step, hd] at hstep
    · simp only [step, hd, if_false, Option.map_eq_some', Prod.mk.injEq] at hstep
      obtain ⟨s2, hs2, rfl, rfl⟩ := hstep
      have h0 := inv_new st live d h hd
      cases a with
      | none =>
        simp only [ctor_cstr, Option.isSome_none, Bool.false_eq_true, if_false,
          Option.some.injEq] at hs2
        subst hs2
        exact ⟨h0, hP⟩
      | some buf =>
        simp only [ctor_cstr, Option.isSome_some, if_true] at hs2
        exact inv_getEntry hash cs _ s2 (d :: live) d (some buf) h0 hP
          (List.mem_cons_self _ _) (by simp [setHandle]) hs2
  | ctor_view d v =>
    by_cases hd : d ∈ live
    · simp [step, hd] at hstep
    · simp only [step, hd, if_false, Option.map_eq_some', Prod.mk.injEq] at hstep
      obtain ⟨s2, hs2, rfl, rfl⟩ := hstep
      have h0 := inv_new st live d h hd
      by_cases hv : v.empty = true
      · simp only [ctor_view, hv, Bool.not_true, Bool.false_eq_true, if_false,
          Option.some.injEq] at hs2
        subst hs2
        exact ⟨h0, hP⟩
      · have hv2 : v.empty = false := by simpa using hv
        simp only [ctor_view, hv2, Bool.not_false, if_true] at hs2
        exact inv_getEntry hash cs _ s2 (d :: live) d v.data h0 hP
          (List.mem_cons_self _ _) (by simp [setHandle]) hs2
  | assign_copy d s =>
    by_cases hc : d ∈ live ∧ s ∈ live
    · simp only [step, hc, and_self, if_true, Option.some.injEq, Prod.mk.injEq] at hstep
      obtain ⟨rfl, rfl⟩ := hstep
      by_cases hds : d = s
      · simpa [assign_copy, hds] using And.intro h hP
      · have h1 := inv_release st live d h hc.1
        have h2 := inv_copy_bind (try_release st d) live d s h1 hc.1 hc.2
          (try_release_spec st d).2.1
        have e : assign_copy st d s = try_acquire
            { try_release st d with
              handles := setHandle (try_release st d).handles d
                { _data := ((try_release st d).handles s)._data } } d := by
          simp [assign_copy, hds]
        rw [e]
        exact ⟨h2, try_acquire_PoolInv hash cs _ d (try_release_PoolInv hash cs st d hP)⟩
    · simp [step, hc] at hstep
  | assign_move d s =>
    by_cases hc : d ∈ live ∧ s ∈ live
    · simp only [step, hc, and_self, if_true, Option.some.injEq, Prod.mk.injEq] at hstep
      obtain ⟨rfl, rfl⟩ := hstep
      by_cases hds : d = s
      · simpa [assign_move, hds] using And.intro h hP
      · exact ⟨inv_move st live d s h hc.1 hc.2 hds, by simpa [assign_move, hds] using hP⟩
    · simp [step, hc] at hstep
  | assign_cstr d a =>
    by_cases hd : d ∈ live
    · simp only [step, hd, if_true, Option.map_eq_some', Prod.mk.injEq] at hstep
      obtain ⟨s2, hs2, rfl, rfl⟩ := hstep
      have h1 := inv_release st live d h hd
      have hP1 := try_release_PoolInv hash cs st d hP
      cases a with
      | none =>
        simp only [assign_cstr, Option.isSome_none, Bool.false_eq_true, if_false,
          Option.some.injEq] at hs2
        subst hs2
        exact ⟨h1, hP1⟩
      | some buf =>
        simp only [assign_cstr, Option.isSome_some, if_true] at hs2
        exact inv_getEntry hash cs _ s2 live d (some buf) h1 hP1 hd
          (try_release_spec st d).2.1 hs2
    · simp [step, hd] at hstep
  | assign_view d v =>
    by_cases hd : d ∈ live
    · simp only [step, hd, if_true, Option.map_eq_some', Prod.mk.injEq] at hstep
      obtain ⟨s2, hs2, rfl, rfl⟩ := hstep
      have h1 := inv_release st live d h hd
      have hP1 := try_release_PoolInv hash cs st d hP
      by_cases hv : v.empty = true
      · simp only [assign_view, hv, Bool.not_true, Bool.false_eq_true, if_false,
          Option.some.injEq] at hs2
        subst hs2
        exact ⟨h1, hP1⟩
      · have hv2 : v.empty = false := by simpa using hv
        simp only [assign_view, hv2, Bool.not_false, if_true] at hs2
        exact inv_getEntry hash cs _ s2 live d v.data h1 hP1 hd
          (try_release_spec st d).2.1 hs2
    · simp [step, hd] at hstep
  | dtor d =>
    by_cases hd : d ∈ live
    · simp only [step, hd, if_true, Option.some.injEq, Prod.mk.injEq] at hstep
      obtain ⟨rfl, rfl⟩ := hstep
      have h1 := inv_release st live d h hd
      exact ⟨inv_erase (try_release st d) live d h1 (try_release_spec st d).2.1,
        try_release_PoolInv hash cs st d hP⟩
    · simp [step, hd] at hstep

/-- Every state a client program reaches from a state with the two invariants has them. -/
theorem run_inv (hash : List CharT → Nat) (cs : Bool) (ops : List Op) :
    ∀ (st st1 : State) (live live1 : List Nat), HandleInv st live → PoolInv hash cs st.pool →
      run hash cs (st, live) ops = some (st1, live1) →
      HandleInv st1 live1 ∧ PoolInv hash cs st1.pool := by
  induction ops with
  | nil =>
    intro st st1 live live1 h hP hrun
    simp only [run, Option.some.injEq, Prod.mk.injEq] at hrun
    obtain ⟨rfl, rfl⟩ := hrun
    exact ⟨h, hP⟩
  | cons op ops ih =>
    intro st st1 live live1 h hP hrun
    simp only [run] at hrun
    cases hs : step hash cs st live op with
    | none => simp [hs] at hrun
    | some sys =>
      obtain ⟨st2, live2⟩ := sys
      simp only [hs] at hrun
      obtain ⟨h2, hP2⟩ := step_inv hash cs st st2 live live2 op h hP hs
      exact ih st2 st1 live2 live1 h2 hP2 hrun

/-- The initial state, with no handle, has the handle invariant. -/
theorem init_HandleInv : HandleInv State.init [] :=
  ⟨List.nodup_nil, fun _ h => by simp at h, fun _ => by simp [boundCount]⟩

/-! ### C11: the state-machine invariant -/

/-- C11: in every state a client program reaches from the pool with no Entries and no handles,
by any finite sequence of constructions, assignments and destructions of handles, every handle
that exists either has the null reference or is bound to an Entry that is in a bucket of the
pool and has a count of at least 1, and the count of every Entry is at least the number of
handles bound to it. -/
theorem C11_state_machine_invariant (hash : List CharT → Nat) (cs : Bool) (ops : List Op)
    (st : State) (live : List Nat)
    (hrun : run hash cs (State.init, []) ops = some (st, live)) :
    (∀ i, i ∈ live → (st.handles i)._data = none ∨
      ∃ p k, (st.handles i)._data = some p ∧ p ∈ st.pool.buckets k ∧ 1 ≤ refs st p) ∧
    (∀ p, boundCount st.handles live p ≤ refs st p) := by
  obtain ⟨h, _⟩ := run_inv hash cs ops State.init st [] live init_HandleInv
    (init_PoolInv hash cs) hrun
  refine ⟨?_, h.counted⟩
  intro i hi
  cases hv : (st.handles i)._data with
  | none => exact Or.inl rfl
  | some p =>
    obtain ⟨k, hk⟩ := h.bound_live i hi p hv
    have h1 := boundCount_pos st.handles live i p hi hv
    exact Or.inr ⟨p, k, rfl, hk, Nat.le_trans h1 (h.counted p)⟩

/-- C11 at a concrete run: handle 0 from "a", handle 1 a copy of it, handle 2 from "b", then
handle 2 move-assigned to handle 0 and handle 1 destroyed. Handles 0 and 2 exist at the end;
the Entry of "a" (address 0) keeps the count 1 with no handle bound to it. -/
theorem C11_state_machine_invariant_witness :
    ∃ (st : State) (live : List Nat),
      run sumHash true (State.init, [])
        [Op.ctor_cstr 0 (some [97, 0]), Op.ctor_copy 1 0, Op.ctor_cstr 2 (some [98, 0]),
          Op.assign_move 0 2, Op.dtor 1] = some (st, live) ∧
      live = [2, 0] ∧
      (st.handles 0)._data = some 1 ∧ (st.handles 2)._data = none ∧
      refs st 0 = 1 ∧ boundCount st.handles live 0 = 0 ∧
      refs st 1 = 1 ∧ boundCount st.handles live 1 = 1 ∧
      ((∀ i, i ∈ live → (st.handles i)._data = none ∨
        ∃ p k, (st.handles i)._data = some p ∧ p ∈ st.pool.buckets k ∧ 1 ≤ refs st p) ∧
      (∀ p, boundCount st.handles live p ≤ refs st p)) :=
  ⟨_, _, rfl, by decide, by decide, by decide, by decide, by decide, by decide, by decide,
    C11_state_machine_invariant sumHash true
      [Op.ctor_cstr 0 (some [97, 0]), Op.ctor_copy 1 0, Op.ctor_cstr 2 (some [98, 0]),
        Op.assign_move 0 2, Op.dtor 1] _ _ rfl⟩

/-! ### Entries keep their text while the pool runs -/

/-- Entries that differ in their counts at most store the same text. -/
theorem SameEntry_text (e f : BSStringPool.Entry) (h : SameEntry e f) :
    entryText e = entryText f := by
  obtain ⟨_, _, hl, hd⟩ := h
  simp [entryText, hl, hd]

theorem Stable_refl (P : BSStringPool) : Stable P P :=
  ⟨Nat.le_refl _, fun _ _ => ⟨rfl, rfl, rfl, rfl⟩⟩

theorem Stable_trans (P Q R : BSStringPool) (h1 : Stable P Q) (h2 : Stable Q R) :
    Stable P R := by
  refine ⟨Nat.le_trans h1.1 h2.1, ?_⟩
  intro p hp
  obtain ⟨a1, a2, a3, a4⟩ := h1.2 p hp
  obtain ⟨b1, b2, b3, b4⟩ := h2.2 p (Nat.lt_of_lt_of_le hp h1.1)
  exact ⟨b1.trans a1, b2.trans a2, b3.trans a3, b4.trans a4⟩

theorem acquire_Stable (P : BSStringPool) (p : Ptr) :
    Stable P (BSStringPool.Entry.acquire P p) :=
  ⟨Nat.le_refl _, fun q _ => acquire_same_entries P p q⟩

theorem release_Stable (P : BSStringPool) (e : Option Ptr) :
    Stable P (BSStringPool.Entry.release P e).1 :=
  ⟨Nat.le_of_eq (release_next P e).symm, fun q _ => release_same_entries P e q⟩

theorem get_or_create_Stable (hash : List CharT → Nat) (P : BSStringPool) (text : List CharT)
    (cs : Bool) : Stable P (BSStringPool.get_or_create hash P text cs).1 := by
  cases hf : (P.buckets (hash (BSStringPool.normalize cs text))).find?
      (fun q => BSStringPool.matchesText cs P.mem q text) with
  | some p =>
    rw [get_or_create_found hash P text cs p hf]
    exact acquire_Stable P p
  | none =>
    rw [get_or_create_new hash P text cs hf]
    refine ⟨Nat.le_succ _, ?_⟩
    intro p hp
    have hne : p ≠ P.next := Nat.ne_of_lt hp
    simp [SameEntry, setEntry, hne]

theorem try_acquire_Stable (st : State) (d : Nat) : Stable st.pool (try_acquire st d).pool := by
  unfold try_acquire
  split
  · exact acquire_Stable st.pool _
  · exact Stable_refl _

theorem try_release_Stable (st : State) (d : Nat) : Stable st.pool (try_release st d).pool :=
  release_Stable st.pool _

theorem callGetEntry_Stable (hash : List CharT → Nat) (cs : Bool) (st st1 : State) (d : Nat)
    (a : ConstPointer) (h : callGetEntry hash cs st d a = some st1) :
    Stable st.pool st1.pool := by
  cases a with
  | none => simp [callGetEntry, GetEntry] at h
  | some buf =>
    cases hc : cstr buf with
    | none => simp [callGetEntry, GetEntry, hc] at h
    | some text =>
      rw [callGetEntry_of_cstr hash cs st d buf text hc] at h
      simp only [Option.some.injEq] at h
      subst h
      exact get_or_create_Stable hash st.pool text cs

/-- Every operation of a client program leaves the existing Entries their text. -/
theorem step_Stable (hash : List CharT → Nat) (cs : Bool) (st st1 : State)
    (live live1 : List Nat) (op : Op) (hstep : step hash cs st live op = some (st1, live1)) :
    Stable st.pool st1.pool := by
  cases op with
  | ctor_default d =>
    by_cases hd : d ∈ live
    · simp [step, hd] at hstep
    · simp only [step, hd, if_false, Option.some.injEq, Prod.mk.injEq] at hstep
      obtain ⟨rfl, rfl⟩ := hstep
      exact Stable_refl _
  | ctor_copy d s =>
    by_cases hc : d ∉ live ∧ s ∈ live
    · simp only [step, hc, and_self, if_true, Option.some.injEq, Prod.mk.injEq] at hstep
      obtain ⟨rfl, rfl⟩ := hstep
      exact try_acquire_Stable
        { st with handles := setHandle st.handles d { _data := (st.handles s)._data } } d
    · simp [step, hc] at hstep
  | ctor_move d s =>
    by_cases hc : d ∉ live ∧ s ∈ live
    · simp only [step, hc, and_self, if_true, Option.some.injEq, Prod.mk.injEq] at hstep
      obtain ⟨rfl, rfl⟩ := hstep
      exact Stable_refl _
    · simp [step, hc] at hstep
  | ctor_cstr d a =>
    by_cases hd : d ∈ live
    · simp [step, hd] at hstep
    · simp only [step, hd, if_false, Option.map_eq_some', Prod.mk.injEq] at hstep
      obtain ⟨s2, hs2, rfl, rfl⟩ := hstep
      cases a with
      | none =>
        simp only [ctor_cstr, Option.isSome_none, Bool.false_eq_true, if_false,
          Option.some.injEq] at hs2
        subst hs2
        exact Stable_refl _
      | some buf =>
        simp only [ctor_cstr, Option.isSome_some, if_true] at hs2
        exact callGetEntry_Stable hash cs
          { st with handles := setHandle st.handles d { _data := none } } s2 d (some buf) hs2
  | ctor_view d v =>
    by_cases hd : d ∈ live
    · simp [step, hd] at hstep
    · simp only [step, hd, if_false, Option.map_eq_some', Prod.mk.injEq] at hstep
      obtain ⟨s2, hs2, rfl, rfl⟩ := hstep
      by_cases hv : v.empty = true
      · simp only [ctor_view, hv, Bool.not_true, Bool.false_eq_true, if_false,
          Option.some.injEq] at hs2
        subst hs2
        exact Stable_refl _
      · have hv2 : v.empty = false := by simpa using hv
        simp only [ctor_view, hv2, Bool.not_false, if_true] at hs2
        exact callGetEntry_Stable hash cs
          { st with handles := setHandle st.handles d { _data := none } } s2 d v.data hs2
  | assign_copy d s =>
    by_cases hc : d ∈ live ∧ s ∈ live
    · simp only [step, hc, and_self, if_true, Option.some.injEq, Prod.mk.injEq] at hstep
      obtain ⟨rfl, rfl⟩ := hstep
      by_cases hds : d = s
      · simpa [assign_copy, hds] using Stable_refl st.pool
      · have e : assign_copy st d s = try_acquire
            { try_release st d with
              handles := setHandle (try_release st d).handles d
                { _data := ((try_release st d).handles s)._data } } d := by
          simp [assign_copy, hds]
        rw [e]
        exact Stable_trans _ _ _ (try_release_Stable st d)
          (try_acquire_Stable
            { try_release st d with
              handles := setHandle (try_release st d).handles d
                { _data := ((try_release st d).handles s)._data } } d)
    · simp [step, hc] at hstep
  | assign_move d s =>
    by_cases hc : d ∈ live ∧ s ∈ live
    · simp only [step, hc, and_self, if_true, Option.some.injEq, Prod.mk.injEq] at hstep
      obtain ⟨rfl, rfl⟩ := hstep
      by_cases hds : d = s
      · simpa [assign_move, hds] using Stable_refl st.pool
      · simpa [assign_move, hds] using Stable_refl st.pool
    · simp [step, hc] at hstep
  | assign_cstr d a =>
    by_cases hd : d ∈ live
    · simp only [step, hd, if_true, Option.map_eq_some', Prod.mk.injEq] at hstep
      obtain ⟨s2, hs2, rfl, rfl⟩ := hstep
      cases a with
      | none =>
        simp only [assign_cstr, Option.isSome_none, Bool.false_eq_true, if_false,
          Option.some.injEq] at hs2
        subst hs2
        exact try_release_Stable st d
      | some buf =>
        simp only [assign_cstr, Option.isSome_some, if_true] at hs2
        exact Stable_trans _ _ _ (try_release_Stable st d)
          (callGetEntry_Stable hash cs (try_release st d) s2 d (some buf) hs2)
    · simp [step, hd] at hstep
  | assign_view d v =>
    by_cases hd : d ∈ live
    · simp only [step, hd, if_true, Option.map_eq_some', Prod.mk.injEq] at hstep
      obtain ⟨s2, hs2, rfl, rfl⟩ := hstep
      by_cases hv : v.empty = true
      · simp only [assign_view, hv, Bool.not_true, Bool.false_eq_true, if_false,
          Option.some.injEq] at hs2
        subst hs2
        exact try_release_Stable st d
      · have hv2 : v.empty = false := by simpa using hv
        simp only [assign_view, hv2, Bool.not_false, if_true] at hs2
        exact Stable_trans _ _ _ (try_release_Stable st d)
          (callGetEntry_Stable hash cs (try_release st d) s2 d v.data hs2)
    · simp [step, hd] at hstep
  | dtor d =>
    by_cases hd : d ∈ live
    · simp only [step, hd, if_true, Option.some.injEq, Prod.mk.injEq] at hstep
      obtain ⟨rfl, rfl⟩ := hstep
      exact try_release_Stable st d
    · simp [step, hd] at hstep

/-- Every run of a client program leaves the existing Entries their text. -/
theorem run_Stable (hash : List CharT → Nat) (cs : Bool) (ops : List Op) :
    ∀ (st st1 : State) (live live1 : List Nat),
      run hash cs (st, live) ops = some (st1, live1) → Stable st.pool st1.pool := by
  induction ops with
  | nil =>
    intro st st1 live live1 hrun
    simp only [run, Option.some.injEq, Prod.mk.injEq] at hrun
    obtain ⟨rfl, rfl⟩ := hrun
    exact Stable_refl _
  | cons op ops ih =>
    intro st st1 live live1 hrun
    simp only [run] at hrun
    cases hs : step hash cs st live op with
    | none => simp [hs] at hrun
    | some sys =>
      obtain ⟨st2, live2⟩ := sys
      simp only [hs] at hrun
      exact Stable_trans _ _ _ (step_Stable hash cs st st2 live live2 op hs)
        (ih st2 st1 live2 live1 hrun)

/-! ### Deduplication by `get_or_create` -/

/-- In a pool with the invariant, `get_or_create` on a text that an Entry of the pool stores, up
to the case rule, returns that Entry. -/
theorem get_or_create_dedup (hash : List CharT → Nat) (cs : Bool) (P : BSStringPool)
    (text : List CharT) (k : Nat) (p : Ptr) (hP : PoolInv hash cs P) (hp : p ∈ P.buckets k)
    (ht : BSStringPool.normalize cs (entryText (P.mem p)) = BSStringPool.normalize cs text) :
    BSStringPool.get_or_create hash P text cs = (BSStringPool.Entry.acquire P p, p) := by
  have hk : k = hash (BSStringPool.normalize cs text) := by
    rw [← ht]
    exact hP.placed k p hp
  subst hk
  cases hf : (P.buckets (hash (BSStringPool.normalize cs text))).find?
      (fun q => BSStringPool.matchesText cs P.mem q text) with
  | none =>
    have hm := matchesText_of cs P.mem p text (hP.interned _ p hp) ht
    exact absurd hm (List.find?_eq_none.mp hf p hp)
  | some r =>
    have hr := List.mem_of_find?_eq_some hf
    have hmr0 := List.find?_some hf
    have hmr : BSStringPool.matchesText cs P.mem r text = true := hmr0
    have hm := (matchesText_imp cs P.mem r text hmr).1
    have hrp : r = p := hP.unique _ r p hr hp (hm.trans ht.symm)
    rw [get_or_create_found hash P text cs r hf, hrp]

/-- The Entry `get_or_create` returns stores the requested text, up to the case rule. -/
theorem get_or_create_text (hash : List CharT → Nat) (cs : Bool) (P : BSStringPool)
    (text : List CharT) :
    BSStringPool.normalize cs (entryText ((BSStringPool.get_or_create hash P text cs).1.mem
      (BSStringPool.get_or_create hash P text cs).2)) = BSStringPool.normalize cs text := by
  cases hf : (P.buckets (hash (BSStringPool.normalize cs text))).find?
      (fun q => BSStringPool.matchesText cs P.mem q text) with
  | some p =>
    rw [get_or_create_found hash P text cs p hf]
    rw [SameEntry_text _ _ (acquire_same_entries P p p)]
    have hmp0 := List.find?_some hf
    have hmp : BSStringPool.matchesText cs P.mem p text = true := hmp0
    exact (matchesText_imp cs P.mem p text hmp).1
  | none =>
    rw [get_or_create_new hash P text cs hf]
    simp [setEntry, entryText]

/-- What the construction of a handle from a text does to the state. -/
theorem step_constructs (hash : List CharT → Nat) (cs : Bool) (st st1 : State)
    (live live1 : List Nat) (op : Op) (i : Nat) (buf text : List CharT)
    (hop : ConstructsFrom op i buf) (hc : cstr buf = some text)
    (hstep : step hash cs st live op = some (st1, live1)) :
    i ∉ live ∧ live1 = i :: live ∧
    st1.pool = (BSStringPool.get_or_create hash st.pool text cs).1 ∧
    (st1.handles i)._data = some (BSStringPool.get_or_create hash st.pool text cs).2 ∧
    (∀ x, x ≠ i → st1.handles x = st.handles x) := by
  have hcall : ∀ s2, callGetEntry hash cs
      { st with handles := setHandle st.handles i { _data := none } } i (some buf) = some s2 →
      s2.pool = (BSStringPool.get_or_create hash st.pool text cs).1 ∧
      (s2.handles i)._data = some (BSStringPool.get_or_create hash st.pool text cs).2 ∧
      (∀ x, x ≠ i → s2.handles x = st.handles x) := by
    intro s2 hs2
    rw [callGetEntry_of_cstr hash cs _ i buf text hc] at hs2
    simp only [Option.some.injEq] at hs2
    subst hs2
    refine ⟨rfl, by simp [setHandle], ?_⟩
    intro x hx
    simp [setHandle, hx]
  rcases hop with rfl | ⟨v, hv, hd, rfl⟩
  · by_cases hi : i ∈ live
    · simp [step, hi] at hstep
    · simp only [step, hi, if_false, Option.map_eq_some', Prod.mk.injEq] at hstep
      obtain ⟨s2, hs2, rfl, rfl⟩ := hstep
      simp only [ctor_cstr, Option.isSome_some, if_true] at hs2
      exact ⟨hi, rfl, hcall s2 hs2⟩
  · by_cases hi : i ∈ live
    · simp [step, hi] at hstep
    · simp only [step, hi, if_false, Option.map_eq_some', Prod.mk.injEq] at hstep
      obtain ⟨s2, hs2, rfl, rfl⟩ := hstep
      have he : v.empty = false := by simp [StringView.empty, hv]
      simp only [ctor_view, he, Bool.not_false, if_true, hd] at hs2
      exact ⟨hi, rfl, hcall s2 hs2⟩

/-! ### C13: deduplication seen through handles -/

/-- C13: a client program runs from the pool with no Entries and no handles, constructs the
handle `i` from the text `a`, runs on while `i` exists and keeps its reference, and constructs
the handle `j` from the text `b` (either text constructor, the texts being those read up to the
terminator). If `a` and `b` are equal under the case mode (identical when case-sensitive, equal
after lowercasing otherwise), both handles hold the identical Entry and compare equal with
`operator==`; if the mode is case-sensitive and `a` and `b` differ, `operator==` is false. -/
theorem C13_deduplication_through_handles (hash : List CharT → Nat) (cs : Bool)
    (pre mid : List Op) (opa opb : Op) (i j : Nat) (bufa bufb a b : List CharT)
    (st0 st1 st2 st3 : State) (live0 live1 live2 live3 : List Nat)
    (hpre : run hash cs (State.init, []) pre = some (st0, live0))
    (hopa : ConstructsFrom opa i bufa) (ha : cstr bufa = some a)
    (h1 : step hash cs st0 live0 opa = some (st1, live1))
    (hmid : run hash cs (st1, live1) mid = some (st2, live2))
    (halive : i ∈ live2) (hsame : st2.handles i = st1.handles i)
    (hopb : ConstructsFrom opb j bufb) (hb : cstr bufb = some b)
    (h3 : step hash cs st2 live2 opb = some (st3, live3)) :
    (BSStringPool.normalize cs a = BSStringPool.normalize cs b →
      (st3.handles i)._data = (st3.handles j)._data ∧ (st3.handles i)._data ≠ none ∧
      opEq st3.pool.mem (st3.handles i) (st3.handles j) = true) ∧
    (cs = true → a ≠ b → opEq st3.pool.mem (st3.handles i) (st3.handles j) = false) := by
  obtain ⟨hH0, hP0⟩ := run_inv hash cs pre State.init st0 [] live0 init_HandleInv
    (init_PoolInv hash cs) hpre
  obtain ⟨hH1, hP1⟩ := step_inv hash cs st0 st1 live0 live1 opa hH0 hP0 h1
  obtain ⟨hH2, hP2⟩ := run_inv hash cs mid st1 st2 live1 live2 hH1 hP1 hmid
  obtain ⟨hH3, hP3⟩ := step_inv hash cs st2 st3 live2 live3 opb hH2 hP2 h3
  obtain ⟨_, hl1, hpool1, hi1, _⟩ := step_constructs hash cs st0 st1 live0 live1 opa i bufa a
    hopa ha h1
  obtain ⟨hj2, hl3, hpool3, hj3, hfr3⟩ := step_constructs hash cs st2 st3 live2 live3 opb j
    bufb b hopb hb h3
  -- the Entry of handle `i`, and its text in the successive pools
  obtain ⟨p, hp⟩ : ∃ p, p = (BSStringPool.get_or_create hash st0.pool a cs).2 := ⟨_, rfl⟩
  rw [← hp] at hi1
  have hi2 : (st2.handles i)._data = some p := by rw [hsame]; exact hi1
  have hij : i ≠ j := fun e => hj2 (e ▸ halive)
  have hi3 : (st3.handles i)._data = some p := by rw [hfr3 i hij]; exact hi2
  have ht1 : BSStringPool.normalize cs (entryText (st1.pool.mem p))
      = BSStringPool.normalize cs a := by
    rw [hpool1, hp]
    exact get_or_create_text hash cs st0.pool a
  obtain ⟨k1, hk1⟩ := hH1.bound_live i (hl1 ▸ List.mem_cons_self _ _) p hi1
  obtain ⟨k2, hk2⟩ := hH2.bound_live i halive p hi2
  have hS12 := run_Stable hash cs mid st1 st2 live1 live2 hmid
  have hS23 := step_Stable hash cs st2 st3 live2 live3 opb h3
  have ht2 : entryText (st2.pool.mem p) = entryText (st1.pool.mem p) :=
    SameEntry_text _ _ (hS12.2 p (hP1.fresh k1 p hk1))
  have ht3 : entryText (st3.pool.mem p) = entryText (st2.pool.mem p) :=
    SameEntry_text _ _ (hS23.2 p (hP2.fresh k2 p hk2))
  constructor
  · intro hab
    have hded := get_or_create_dedup hash cs st2.pool b k2 p hP2 hk2
      (by rw [ht2, ht1, hab])
    have hj3p : (st3.handles j)._data = some p := by
      rw [hj3, hded]
    refine ⟨by rw [hi3, hj3p], by simp [hi3], ?_⟩
    simp [opEq, leaf, hi3, hj3p]
  · intro hcs hne
    subst hcs
    obtain ⟨r, hr⟩ : ∃ r, r = (BSStringPool.get_or_create hash st2.pool b true).2 := ⟨_, rfl⟩
    rw [← hr] at hj3
    have htr : entryText (st3.pool.mem r) = b := by
      have := get_or_create_text hash true st2.pool b
      rw [← hpool3, ← hr] at this
      simpa [BSStringPool.normalize] using this
    have htp : entryText (st3.pool.mem p) = a := by
      rw [ht3, ht2]
      simpa [BSStringPool.normalize] using ht1
    have hpr : p ≠ r := by
      intro e
      rw [e, htr] at htp
      exact hne htp.symm
    have hi_live : i ∈ live3 := hl3 ▸ List.mem_cons_of_mem _ halive
    have hj_live : j ∈ live3 := hl3 ▸ List.mem_cons_self _ _
    obtain ⟨kp, hkp⟩ := hH3.bound_live i hi_live p hi3
    obtain ⟨kr, hkr⟩ := hH3.bound_live j hj_live r hj3
    have hIp := hP3.interned kp p hkp
    have hIr := hP3.interned kr r hkr
    have hsp : (st3.pool.mem p).size = a.length := by
      rw [hIp.2.1, ← (Interned_text _ p hIp).2, htp]
    have hsr : (st3.pool.mem r).size = b.length := by
      rw [hIr.2.1, ← (Interned_text _ r hIr).2, htr]
    have hleaf : leaf st3.pool.mem (st3.handles i) ≠ leaf st3.pool.mem (st3.handles j) := by
      simp only [leaf, hi3, hj3, hIp.1, hIr.1]
      intro e
      exact hpr (Option.some.inj e)
    have hempty : ¬ (empty st3.pool.mem (st3.handles i) = true ∧
        empty st3.pool.mem (st3.handles j) = true) := by
      simp only [empty, size, hi3, hj3, hsp, hsr, beq_iff_eq]
      intro ⟨e1, e2⟩
      exact hne ((List.length_eq_zero.mp e1).trans (List.length_eq_zero.mp e2).symm)
    cases hres : opEq st3.pool.mem (st3.handles i) (st3.handles j) with
    | false => rfl
    | true =>
      rcases (opEq_eq_true_iff _ _ _).mp hres with h4 | h4
      · exact absurd h4 hleaf
      · exact absurd h4 hempty

/-- C13 at concrete runs. Case-insensitive: handle 0 from the C string "Foo", handle 1 from
"bar", handle 2 from the view "FOO"; handles 0 and 2 hold the same Entry and are equal.
Case-sensitive: handle 0 from "Sword", handle 1 from "sword"; they are not equal. -/
theorem C13_deduplication_through_handles_witness :
    (∃ (st3 : State) (live3 : List Nat),
      run sumHash false (State.init, [])
        [Op.ctor_cstr 0 (some [70, 111, 111, 0]), Op.ctor_cstr 1 (some [98, 97, 114, 0]),
          Op.ctor_view 2 { data := some [70, 79, 79, 0], length := 3 }] = some (st3, live3) ∧
      BSStringPool.normalize false [70, 111, 111] = BSStringPool.normalize false [70, 79, 79] ∧
      (st3.handles 0)._data = (st3.handles 2)._data ∧ (st3.handles 0)._data ≠ none ∧
      opEq st3.pool.mem (st3.handles 0) (st3.handles 2) = true) ∧
    (∃ (st3 : State) (live3 : List Nat),
      run sumHash true (State.init, [])
        [Op.ctor_cstr 0 (some [83, 119, 111, 114, 100, 0]),
          Op.ctor_cstr 1 (some [115, 119, 111, 114, 100, 0])] = some (st3, live3) ∧
      opEq st3.pool.mem (st3.handles 0) (st3.handles 1) = false) :=
  ⟨⟨_, _, rfl, by decide,
      (C13_deduplication_through_handles sumHash false [] [Op.ctor_cstr 1 (some [98, 97, 114, 0])]
        (Op.ctor_cstr 0 (some [70, 111, 111, 0]))
        (Op.ctor_view 2 { data := some [70, 79, 79, 0], length := 3 }) 0 2
        [70, 111, 111, 0] [70, 79, 79, 0] [70, 111, 111] [70, 79, 79]
        State.init _ _ _ [] _ _ _ rfl (Or.inl rfl) (by decide) rfl rfl (by decide) rfl
        (Or.inr ⟨_, by decide, rfl, rfl⟩) (by decide) rfl).1 (by decide)⟩,
   ⟨_, _, rfl,
      (C13_deduplication_through_handles sumHash true [] []
        (Op.ctor_cstr 0 (some [83, 119, 111, 114, 100, 0]))
        (Op.ctor_cstr 1 (some [115, 119, 111, 114, 100, 0])) 0 1
        [83, 119, 111, 114, 100, 0] [115, 119, 111, 114, 100, 0] [83, 119, 111, 114, 100]
        [115, 119, 111, 114, 100]
        State.init _ _ _ [] _ _ _ rfl (Or.inl rfl) (by decide) rfl rfl (by decide) rfl
        (Or.inl rfl) (by decide) rfl).2 rfl (by decide)⟩⟩

/-! ### C17: identity equality and content equality -/

/-- Normalizing a text is folding each of its code units. -/
theorem normalize_eq_map (cs : Bool) (t : List CharT) :
    BSStringPool.normalize cs t = t.map (caseFold cs) := by
  cases cs with
  | true =>
    have hid : caseFold true = id := by
      funext c
      simp [caseFold]
    simp [BSStringPool.normalize, hid]
  | false =>
    have hlow : caseFold false = tolower := by
      funext c
      simp [caseFold]
    simp [BSStringPool.normalize, hlow]

/-- Two texts of the same length agree position by position under the case rule, read from
their terminated buffers, exactly when their folded forms are equal. -/
theorem pointwise_iff_map (cs : Bool) : ∀ (t u : List CharT), t.length = u.length →
    ((∀ i, i < t.length →
        caseFold cs ((t ++ [0]).getD i 0) = caseFold cs ((u ++ [0]).getD i 0)) ↔
      t.map (caseFold cs) = u.map (caseFold cs)) := by
  intro t
  induction t with
  | nil =>
    intro u hu
    have hu2 : u = [] := List.length_eq_zero.mp hu.symm
    subst hu2
    simp
  | cons x t ih =>
    intro u hu
    cases u with
    | nil => simp at hu
    | cons y u =>
      have hlen : t.length = u.length := by simpa using hu
      simp only [List.map_cons, List.cons.injEq]
      rw [← ih u hlen]
      constructor
      · intro h
        refine ⟨by simpa using h 0 (Nat.succ_pos _), ?_⟩
        intro i hi
        simpa using h (i + 1) (Nat.succ_lt_succ hi)
      · intro ⟨h0, h1⟩ i hi
        cases i with
        | zero => simpa using h0
        | succ j => simpa using h1 j (Nat.lt_of_succ_lt_succ hi)

/-- The same, for the normalized forms of the texts. -/
theorem pointwise_iff_normalize (cs : Bool) (t u : List CharT) (h : t.length = u.length) :
    ((∀ i, i < t.length →
        caseFold cs ((t ++ [0]).getD i 0) = caseFold cs ((u ++ [0]).getD i 0)) ↔
      BSStringPool.normalize cs t = BSStringPool.normalize cs u) := by
  rw [normalize_eq_map, normalize_eq_map]
  exact pointwise_iff_map cs t u h

/-- A text without terminator has no terminator before its length in its buffer. -/
theorem getD_ne_zero_of_noNul (t : List CharT) (h0 : (0 : Nat) ∉ t) (i : Nat)
    (hi : i < t.length) : (t ++ [0]).getD i 0 ≠ 0 := by
  intro h
  have hget : (t ++ [0]).getD i 0 = t[i] := by
    simp [List.getD, List.getElem?_append_left hi, List.getElem?_eq_getElem hi]
  rw [hget] at h
  exact h0 (h ▸ List.getElem_mem hi)

/-- The content pointer of an Entry with content is to its text followed by the terminator. -/
theorem HasContent_text (mem : Mem) (p : Ptr) (h : HasContent mem p) :
    (mem p).data = some (entryText (mem p) ++ [0]) ∧
    (entryText (mem p)).length = (mem p).length := by
  obtain ⟨_, _, t, ht, hl⟩ := h
  have ht2 : entryText (mem p) = t := by
    simp [entryText, ht, ← hl]
  rw [ht2]
  exact ⟨ht, hl⟩

/-- The null handle against a handle bound to an Entry with content: both comparisons are true
exactly when the Entry has length 0. -/
theorem null_against_bound (cs : Bool) (mem : Mem) (q : Ptr) (hq : HasContent mem q) :
    opEqView cs mem { _data := none } (toStringView mem { _data := some q })
      = some (opEq mem { _data := none } { _data := some q }) := by
  obtain ⟨hl, hs, _⟩ := hq
  have hop : opEq mem { _data := none } { _data := some q }
      = decide ((mem q).length = 0) := by
    by_cases hn : (mem q).leaf = none
    · have h0 : (mem q).length = 0 := by
        rw [← hs]
        exact hl hn
      simp [opEq, leaf, hn, h0]
    · have hn2 : ¬ (none = (mem q).leaf) := fun e => hn e.symm
      simp [opEq, leaf, hn2, empty, size, hs]
  rw [hop]
  by_cases h0 : (mem q).length = 0
  · simp [opEqView, toStringView, StringView.empty, empty, size, length, h0]
  · have h1 : ¬ (0 = (mem q).length) := fun e => h0 e.symm
    simp [opEqView, toStringView, StringView.empty, empty, size, length, h0, h1]

/-- A handle bound to an Entry with content against the null handle: both comparisons are true
exactly when the Entry has length 0. -/
theorem bound_against_null (cs : Bool) (mem : Mem) (p : Ptr) (hp : HasContent mem p) :
    opEqView cs mem { _data := some p } (toStringView mem { _data := none })
      = some (opEq mem { _data := some p } { _data := none }) := by
  obtain ⟨hl, hs, _⟩ := hp
  have hop : opEq mem { _data := some p } { _data := none }
      = decide ((mem p).length = 0) := by
    by_cases hn : (mem p).leaf = none
    · have h0 : (mem p).length = 0 := by
        rw [← hs]
        exact hl hn
      simp [opEq, leaf, hn, h0]
    · simp [opEq, leaf, hn, empty, size, hs]
  rw [hop]
  by_cases h0 : (mem p).length = 0
  · simp [opEqView, toStringView, StringView.empty, empty, size, length, hs, h0]
  · simp [opEqView, toStringView, StringView.empty, empty, size, length, hs, h0]

/-- C17: for two handles of a pool (each null, or bound to an Entry with content: `size()` and
`length()` agree, the content pointer is to the text and its terminator, a null leaf only with
size 0; the Entry of `a` storing a text without terminator; the leaf of an Entry may be
another Entry), under the invariant that their Entries have the same leaf exactly when their
texts are equal under the case mode, `a == b` on the leaves and `a ==` the string view of `b`
on length and content return the same value, also when either handle has the null
reference. -/
theorem C17_identity_agrees_with_content (cs : Bool) (mem : Mem) (a b : BSFixedString)
    (ha : ∀ p, a._data = some p → HasContent mem p ∧ (0 : Nat) ∉ entryText (mem p))
    (hb : ∀ q, b._data = some q → HasContent mem q)
    (hinv : ∀ p q, a._data = some p → b._data = some q →
      ((mem p).leaf = (mem q).leaf ↔
        BSStringPool.normalize cs (entryText (mem p))
          = BSStringPool.normalize cs (entryText (mem q)))) :
    opEqView cs mem a (toStringView mem b) = some (opEq mem a b) := by
  obtain ⟨x⟩ := a
  obtain ⟨y⟩ := b
  cases x with
  | none =>
    cases y with
    | none => simp [opEqView, opEq, toStringView, StringView.empty, empty, size, length]
    | some q => exact null_against_bound cs mem q (hb q rfl)
  | some p =>
    obtain ⟨hIp, hnul⟩ := ha p rfl
    have hsp := hIp.2.1
    obtain ⟨hdp, htp⟩ := HasContent_text mem p hIp
    cases y with
    | none => exact bound_against_null cs mem p hIp
    | some q =>
      have hIq := hb q rfl
      have hsq := hIq.2.1
      obtain ⟨hdq, htq⟩ := HasContent_text mem q hIq
      have hi := hinv p q rfl rfl
      by_cases hboth : (mem p).length = 0 ∧ (mem q).length = 0
      · simp [opEqView, opEq, toStringView, StringView.empty, empty, size, length, hsp, hsq,
          hboth.1, hboth.2]
      · have hnb : ((mem p).length == 0 && (mem q).length == 0) = false := by
          cases h1 : (mem p).length == 0 <;> cases h2 : (mem q).length == 0 <;> simp_all
        by_cases hlen : (mem p).length = (mem q).length
        · obtain ⟨r, hr, hiff⟩ := strncmp_spec cs (mem p).length
            (entryText (mem p) ++ [0]) (entryText (mem q) ++ [0])
            (some (entryText (mem q) ++ [0])) rfl (by simp; omega) (by simp; omega)
            (fun i hi => getD_ne_zero_of_noNul _ hnul i (htp ▸ hi))
          have hpw := pointwise_iff_normalize cs (entryText (mem p)) (entryText (mem q))
            (by omega)
          rw [htp] at hpw
          have he : (empty mem { _data := some p }
              && (toStringView mem { _data := some q }).empty) = false := by
            simpa [empty, size, toStringView, StringView.empty, length, hsp] using hnb
          have hc : c_str mem { _data := some p } = some (entryText (mem p) ++ [0]) := by
            simp [c_str, data, hdp]
          have hv : (toStringView mem { _data := some q }).data
              = some (entryText (mem q) ++ [0]) := by
            simp [toStringView, c_str, data, hdq]
          have hl : ¬ (length mem { _data := some p }
              ≠ (toStringView mem { _data := some q }).length) := by
            simpa [length, toStringView] using hlen
          have hlp2 : length mem { _data := some p } = (mem p).length := rfl
          have hval : opEqView cs mem { _data := some p } (toStringView mem { _data := some q })
              = some (r == 0) := by
            unfold opEqView
            rw [he, if_neg (by simp), if_neg hl, hc, hv, hlp2, hr]
            rfl
          rw [hval]
          have hop : opEq mem { _data := some p } { _data := some q }
              = decide ((mem p).leaf = (mem q).leaf) := by
            simp only [opEq, leaf, empty, size, hsp, hsq, hnb]
            by_cases hleaf : (mem p).leaf = (mem q).leaf <;> simp [hleaf]
          rw [hop]
          congr 1
          by_cases hr0 : r = 0
          · have := hi.mpr (hpw.mp (hiff.mp hr0))
            simp [hr0, this]
          · have hnl : ¬ (mem p).leaf = (mem q).leaf := fun e =>
              hr0 (hiff.mpr (hpw.mpr (hi.mp e)))
            simp [hr0, hnl]
        · have hnl : ¬ (mem p).leaf = (mem q).leaf := by
            intro e
            have := congrArg List.length (hi.mp e)
            rw [normalize_length, normalize_length] at this
            omega
          simp [opEqView, opEq, toStringView, StringView.empty, empty, size, length, leaf, hsp,
            hsq, hnb, hlen, hnl]

/-- C17 at concrete inputs, over the sample storage with a shared leaf: the handle bound to the
second Entry of "a" (address 1, leaf at address 0) against the handle bound to the Entry at
address 0, two Entries with one leaf and one text: both comparisons are true; and against the
handle bound to the Entry of "b": both comparisons are false. -/
theorem C17_identity_agrees_with_content_witness :
    HasContent sharedLeafMem 1 ∧ (0 : Nat) ∉ entryText (sharedLeafMem 1) ∧
    HasContent sharedLeafMem 0 ∧ HasContent sharedLeafMem 2 ∧
    (sharedLeafMem 1).leaf ≠ some 1 ∧
    ((sharedLeafMem 1).leaf = (sharedLeafMem 0).leaf ↔
      BSStringPool.normalize true (entryText (sharedLeafMem 1))
        = BSStringPool.normalize true (entryText (sharedLeafMem 0))) ∧
    ((sharedLeafMem 1).leaf = (sharedLeafMem 2).leaf ↔
      BSStringPool.normalize true (entryText (sharedLeafMem 1))
        = BSStringPool.normalize true (entryText (sharedLeafMem 2))) ∧
    opEq sharedLeafMem { _data := some 1 } { _data := some 0 } = true ∧
    opEqView true sharedLeafMem { _data := some 1 } (toStringView sharedLeafMem { _data := some 0 })
      = some (opEq sharedLeafMem { _data := some 1 } { _data := some 0 }) ∧
    opEq sharedLeafMem { _data := some 1 } { _data := some 2 } = false ∧
    opEqView true sharedLeafMem { _data := some 1 } (toStringView sharedLeafMem { _data := some 2 })
      = some (opEq sharedLeafMem { _data := some 1 } { _data := some 2 }) :=
  have h1 : HasContent sharedLeafMem 1 := ⟨by decide, by decide, [97], by decide, by decide⟩
  have h0 : HasContent sharedLeafMem 0 := ⟨by decide, by decide, [97], by decide, by decide⟩
  have h2 : HasContent sharedLeafMem 2 := ⟨by decide, by decide, [98], by decide, by decide⟩
  have hn : (0 : Nat) ∉ entryText (sharedLeafMem 1) := by decide
  have hi0 : ((sharedLeafMem 1).leaf = (sharedLeafMem 0).leaf ↔
      BSStringPool.normalize true (entryText (sharedLeafMem 1))
        = BSStringPool.normalize true (entryText (sharedLeafMem 0))) := by decide
  have hi2 : ((sharedLeafMem 1).leaf = (sharedLeafMem 2).leaf ↔
      BSStringPool.normalize true (entryText (sharedLeafMem 1))
        = BSStringPool.normalize true (entryText (sharedLeafMem 2))) := by decide
  ⟨h1, hn, h0, h2, by decide, hi0, hi2, by decide,
    C17_identity_agrees_with_content true sharedLeafMem { _data := some 1 } { _data := some 0 }
      (fun p hp => by
        have e : p = 1 := (Option.some.inj hp).symm
        subst e
        exact ⟨h1, hn⟩)
      (fun q hq => by
        have e : q = 0 := (Option.some.inj hq).symm
        subst e
        exact h0)
      (fun p q hp hq => by
        have e1 : p = 1 := (Option.some.inj hp).symm
        have e2 : q = 0 := (Option.some.inj hq).symm
        subst e1
        subst e2
        exact hi0),
    by decide,
    C17_identity_agrees_with_content true sharedLeafMem { _data := some 1 } { _data := some 2 }
      (fun p hp => by
        have e : p = 1 := (Option.some.inj hp).symm
        subst e
        exact ⟨h1, hn⟩)
      (fun q hq => by
        have e : q = 2 := (Option.some.inj hq).symm
        subst e
        exact h2)
      (fun p q hp hq => by
        have e1 : p = 1 := (Option.some.inj hp).symm
        have e2 : q = 2 := (Option.some.inj hq).symm
        subst e1
        subst e2
        exact hi2)⟩
